import Mathlib

/-!
Shallow embedding of the Minor CPU execute/commit engine
(`src/cpu/minor/execute.cc` of the gemV_armv8 repository) and proofs about
the behaviour its specification claims.

Modelling conventions:
* machine integers (sequence numbers, cycles, register indices, PC values)
  are `Nat`; faults are `Option Nat` with `none` standing for `NoFault`;
* calls into external collaborators (the ISA's `execute`/`initiateAcc`/
  `completeAcc`/`advancePC`, thread-context status, the scoreboard's
  `execSeqNumToWaitFor`) are represented by per-instruction input fields
  holding the value the collaborator would return;
* the fault-injection instrumentation interleaved in the source
  (`FItarget`, `faultIsInjected`, symbol-table lookups, DPRINTF tracing,
  per-function statistics) observes but does not steer the engine's
  control flow in normal runs (it only fires for a configured tick); it
  is modelled as absent, matching the specification's scope section which
  excludes instrumentation side channels.
-/

namespace Minor

/-- The reasons a `BranchData` can carry
(`BranchData::Reason`, declared in the pipeline-data header; the set of
constructors is listed in the specification's data model). -/
inductive Reason where
  | NoBranch
  | CorrectlyPredictedBranch
  | BadlyPredictedBranch
  | BadlyPredictedBranchTarget
  | UnpredictedBranch
  | Interrupt
  | SuspendThread
  | HaltFetch
  | WakeupFetch
deriving DecidableEq, BEq, Repr

/-- A dynamic instruction (`MinorDynInst`) restricted to the fields the
execute/commit engine reads or writes.  Results of calls into external
collaborators (ISA semantics, thread context, scoreboard sequence-number
query) are carried as input fields. -/
structure MInst where
  isBubble : Bool := false
  /-- `inst->fault`; `inst->isFault()` holds exactly when this is `some`. -/
  fault : Option Nat := none
  threadId : Nat := 0
  streamSeqNum : Nat := 1
  predictionSeqNum : Nat := 1
  execSeqNum : Nat := 1
  /-- `inst->pc` (the fetch-time PC), flattened to one number. -/
  pc : Nat := 0
  predictedTaken : Bool := false
  predictedTarget : Nat := 0
  /-- value of `target` after `TheISA::advancePC(target, inst->staticInst)`
  (ISA collaborator result). -/
  advancedPC : Nat := 0
  opClass : Nat := 0
  /-- key used by a functional unit's `findTiming` for this instruction. -/
  machInst : Nat := 0
  srcRegs : List Nat := []
  destRegs : List Nat := []
  isMemRef : Bool := false
  isLoad : Bool := false
  isStore : Bool := false
  isDataPrefetch : Bool := false
  isPrefetch : Bool := false
  isMemBarrier : Bool := false
  isMicroop : Bool := false
  isFirstMicroop : Bool := false
  isLastOpInInst : Bool := false
  isSerializeAfter : Bool := false
  isIprAccess : Bool := false
  isNoCost : Bool := false
  inLSQ : Bool := false
  canEarlyIssue : Bool := false
  instToWaitFor : Nat := 0
  /-- `scoreboard.execSeqNumToWaitFor(inst, thread)` collaborator result. -/
  execSeqNumToWaitFor : Nat := 0
  fuIndex : Nat := 0
  extraCommitDelay : Nat := 0
  /-- the deferred extra-commit-delay expression, modelled by the value its
  one evaluation would produce (`none` = no expression attached). -/
  extraCommitDelayExpr : Option Nat := none
  minimumCommitCycle : Nat := 0
  /-- `thread->status() == ThreadContext::Suspended` when commit first
  examines the instruction. -/
  threadSuspended : Bool := false
  /-- thread status read again after the opaque execute operation. -/
  threadSuspendedAfter : Bool := false
  /-- `isInterrupted(thread_id)` for this instruction's thread. -/
  interrupted : Bool := false
  /-- fault returned by the opaque `staticInst->execute` call. -/
  execFault : Option Nat := none
  /-- fault returned by the opaque `staticInst->initiateAcc` call. -/
  initiateAccFault : Option Nat := none
  /-- fault returned by the opaque `staticInst->completeAcc` call. -/
  completeAccFault : Option Nat := none
  /-- `context.readPredicate()` after initiating a memory access. -/
  readPredicate : Bool := true

/-- `MinorDynInst::isInst()`: a real decoded instruction, neither the
bubble nor a fault carrier. -/
def MInst.isInst (i : MInst) : Bool := !i.isBubble && i.fault.isNone

/-- The shared bubble instruction (`MinorDynInst::bubble()`). -/
def bubbleMInst : MInst := { isBubble := true }

/-- The signal sent to fetch on a redirect (`BranchData`), restricted to
the fields `Execute::updateBranchData` fills in. -/
structure BranchData where
  reason : Reason
  newStreamSeqNum : Nat
  predictionSeqNum : Nat
  target : Nat
deriving DecidableEq, BEq, Repr

/-- The scoreboard's per-register state.  Modelled from the spec:
`scoreboard.cc` is not part of the sources; specification §4.1 says the
scoreboard records, for every destination register, the cycle at which it
becomes readable (`0`/absent meaning free). -/
structure Scoreboard where
  busyUntil : List (Nat × Nat)
deriving DecidableEq, Repr

/-- The recorded ready cycle for a register (0 when the register is free). -/
def Scoreboard.readyCycle (sb : Scoreboard) (r : Nat) : Nat :=
  match sb.busyUntil.find? (fun p => p.1 == r) with
  | some p => p.2
  | none => 0

/-- Modelled from the spec: `Scoreboard::markupInstDests` (scoreboard.cc,
not in the sources) records, for every destination register of the
instruction, the cycle at which it becomes readable (§4.1 `markBusy`).
The `mark_unpredictable` flag the source also passes only affects
forwarding bookkeeping, which no claim touches. -/
def Scoreboard.markupInstDests (sb : Scoreboard) (dests : List Nat)
    (retireCycle : Nat) : Scoreboard :=
  ⟨dests.map (fun d => (d, retireCycle)) ++ sb.busyUntil⟩

/-- Modelled from the spec: `Scoreboard::clearInstDests` (scoreboard.cc,
not in the sources) releases the entries of the instruction's destination
registers on commit or discard (§4.1 `clear`). -/
def Scoreboard.clearInstDests (sb : Scoreboard) (dests : List Nat) :
    Scoreboard :=
  ⟨sb.busyUntil.filter (fun p => !(dests.contains p.1))⟩

/-- Modelled from the spec: `Scoreboard::canInstIssue` (scoreboard.cc, not
in the sources) returns true only if every source register's recorded
ready cycle is at most the current cycle (§4.1; the forwarding-exception
adjustments are not modelled because no claim depends on them). -/
def Scoreboard.canInstIssue (sb : Scoreboard) (srcRegs : List Nat)
    (now : Nat) : Bool :=
  srcRegs.all (fun r => sb.readyCycle r ≤ now)

/-- The engine state the branch/commit paths read and write
(members of `Execute`). -/
structure Engine where
  streamSeqNum : Nat := 1
  lastPredictionSeqNum : Nat := 1
  lastCommitWasEndOfMacroop : Bool := true
  numDiscardedOps : Nat := 0
  /-- `thread->numOps`-style commit accounting
  (`doInstCommitAccounting`). -/
  numOps : Nat := 0
  scoreboard : Scoreboard := ⟨[]⟩
deriving Repr

/-- Modelled from the spec: `BranchData::isStreamChange` lives in the
pipeline-data translation unit, which is not among the sources.  Per the
specification's data model, only a reason that "represents a genuine
stream change" bumps the stream sequence number, and the glossary says
the stream sequence number is bumped on every real redirect; a correctly
predicted branch is explicitly "killed" with execution carrying on, and
`NoBranch` is no redirect at all, so exactly the reasons other than these
two are stream changes. -/
def isStreamChange : Reason → Bool
  | .NoBranch => false
  | .CorrectlyPredictedBranch => false
  | _ => true

/-- `Execute::updateBranchData`: for any reason other than `NoBranch`,
bump the stream sequence number if the reason is a stream change and
construct the outgoing `BranchData`; otherwise leave the outgoing branch
as it was. -/
def updateBranchData (eng : Engine) (reason : Reason) (inst : MInst)
    (target : Nat) (branchIn : Option BranchData) :
    Engine × Option BranchData :=
  if reason ≠ Reason.NoBranch then
    let s := if isStreamChange reason then eng.streamSeqNum + 1
             else eng.streamSeqNum
    ({ eng with streamSeqNum := s },
     some { reason := reason, newStreamSeqNum := s,
            predictionSeqNum :=
              if inst.isBubble then eng.lastPredictionSeqNum
              else inst.predictionSeqNum,
            target := target })
  else
    (eng, branchIn)

/-- The forced-branch condition of `Execute::tryToBranch`: serialize-after
or IPR-access instructions at the end of a micro-op sequence force a
branch when the thread is not suspended. -/
def forceBranch (inst : MInst) : Bool :=
  !inst.threadSuspendedAfter && inst.fault.isNone && inst.isLastOpInInst &&
    (inst.isSerializeAfter || inst.isIprAccess)

/-- Result of `Execute::tryToBranch`: updated engine, updated thread PC,
the (possibly updated) outgoing branch and the classification reason. -/
structure TTBResult where
  eng : Engine
  threadPC : Nat
  branch : Option BranchData
  reason : Reason
deriving Repr

/-- `Execute::tryToBranch`: compare the post-execute PC with the next-PC
the instruction's fetch predicted, classify the outcome and hand the
reason to `updateBranchData`.  When no fault is present the thread PC is
advanced past the instruction (the ISA collaborator's `advancePC` result);
the fault-injection instrumentation that may corrupt the target in the
source only fires at a configured tick and is modelled as absent. -/
def tryToBranch (eng : Engine) (inst : MInst) (fault : Option Nat)
    (threadPC : Nat) (branchIn : Option BranchData) : TTBResult :=
  let pcBefore := inst.pc
  let target0 := threadPC
  let force_branch := forceBranch inst
  let must_branch := (pcBefore != target0) || fault.isSome || force_branch
  let target := if fault.isNone then inst.advancedPC else target0
  let threadPC2 := if fault.isNone then inst.advancedPC else threadPC
  let reason : Reason :=
    if inst.predictedTaken && !force_branch then
      if !must_branch then .BadlyPredictedBranch
      else if inst.predictedTarget == target then .CorrectlyPredictedBranch
      else .BadlyPredictedBranchTarget
    else if must_branch then .UnpredictedBranch
    else .NoBranch
  let p := updateBranchData eng reason inst target branchIn
  ⟨p.1, threadPC2, p.2, reason⟩

/-- A response coming back from the LSQ collaborator
(`LSQ::LSQRequest`, restricted to what `handleMemResponse` reads). -/
structure MemResponse where
  fault : Option Nat := none
  /-- whether `response->packet` is non-null. -/
  hasPacket : Bool := true
  /-- `packet->isError()`. -/
  packetError : Bool := false
  needsToBeSentToStoreBuffer : Bool := false
deriving Repr

/-- Result of `Execute::handleMemResponse`. -/
structure HMRResult where
  eng : Engine
  threadPC : Nat
  branch : Option BranchData
  reason : Reason := .NoBranch
  fault : Option Nat := none
  completeAccCalled : Bool := false
  faultInvoked : Bool := false
  sentToStoreBuffer : Bool := false
  responsePopped : Bool := false
  fatalError : Bool := false
deriving Repr

/-- `Execute::handleMemResponse`: complete a memory instruction from its
LSQ response.  A faulting response invokes the fault (unless the
instruction is a prefetch) and never calls `completeAcc`; an error-flagged
packet is fatal; otherwise `completeAcc` finishes the access.  On every
non-fatal path the response is popped, commit accounting runs and
`tryToBranch` resolves the redirect. -/
def handleMemResponse (eng : Engine) (inst : MInst) (response : MemResponse)
    (branchIn : Option BranchData) (threadPC : Nat) : HMRResult :=
  let is_load := inst.isLoad
  let is_store := inst.isStore
  let is_prefetch := inst.isDataPrefetch
  if response.fault.isSome then
    let fault := if inst.isPrefetch then none else response.fault
    let faultInv := !inst.isPrefetch
    let t := tryToBranch { eng with numOps := eng.numOps + 1 } inst fault
        threadPC branchIn
    { eng := t.eng, threadPC := t.threadPC, branch := t.branch,
      reason := t.reason, fault := fault, faultInvoked := faultInv,
      responsePopped := true }
  else if !response.hasPacket then
    let t := tryToBranch { eng with numOps := eng.numOps + 1 } inst none
        threadPC branchIn
    { eng := t.eng, threadPC := t.threadPC, branch := t.branch,
      reason := t.reason, responsePopped := true }
  else if response.packetError then
    { eng := eng, threadPC := threadPC, branch := branchIn,
      fatalError := true }
  else if is_store || is_load || is_prefetch then
    let fault := inst.completeAccFault
    let sent := fault.isNone && response.needsToBeSentToStoreBuffer
    let t := tryToBranch { eng with numOps := eng.numOps + 1 } inst fault
        threadPC branchIn
    { eng := t.eng, threadPC := t.threadPC, branch := t.branch,
      reason := t.reason, fault := fault, completeAccCalled := true,
      faultInvoked := fault.isSome, sentToStoreBuffer := sent,
      responsePopped := true }
  else
    { eng := eng, threadPC := threadPC, branch := branchIn,
      fatalError := true }

/-! ### Drain state machine (`Execute::DrainState`) -/

/-- The drain states of the engine. -/
inductive DrainState where
  | NotDraining
  | DrainCurrentInst
  | DrainHaltFetch
  | DrainAllInsts
deriving DecidableEq, BEq, Repr

/-- `Execute::drain()`: when not already draining, go straight to
`DrainHaltFetch` if currently between whole instructions, otherwise to
`DrainCurrentInst`; an already-draining engine is left alone. -/
def drain (ds : DrainState) (isInbetweenInsts : Bool) : DrainState :=
  if ds = .NotDraining then
    if isInbetweenInsts then .DrainHaltFetch else .DrainCurrentInst
  else ds

/-- `Execute::drainResume()`: reset to `NotDraining` (and wake fetch). -/
def drainResume (_ds : DrainState) : DrainState := .NotDraining

/-- The drain handling in `Execute::evaluate` before issue: in
`DrainCurrentInst` only microops are committed and, once the engine is
between whole instructions, the state becomes `DrainHaltFetch`. -/
def evaluateDrainCommitPhase (ds : DrainState)
    (isInbetweenAfterCommit : Bool) : DrainState :=
  match ds with
  | .DrainCurrentInst =>
    if isInbetweenAfterCommit then .DrainHaltFetch else .DrainCurrentInst
  | other => other

/-- The drain handling in `Execute::evaluate` after commit/issue: a
`DrainHaltFetch` engine emits the halt-fetch redirect and moves to
`DrainAllInsts`. -/
def evaluateDrainHaltPhase (ds : DrainState) : DrainState :=
  if ds = .DrainHaltFetch then .DrainAllInsts else ds

/-- `Execute::isDrained()`: drained exactly in `DrainAllInsts` with the
input buffer, the in-flight queue and the LSQ all empty/drained. -/
def isDrained (ds : DrainState) (inputBufferEmpty inFlightEmpty
    lsqDrained : Bool) : Bool :=
  ds == .DrainAllInsts && inputBufferEmpty && inFlightEmpty && lsqDrained

/-! ### Constructor configuration checks (`Execute::Execute`) -/

/-- The configuration parameters the constructor validates
(`MinorCPUParams`, restricted to the validated fields). -/
structure MinorCPUParams where
  executeCommitLimit : Int
  executeIssueLimit : Int
  executeMemoryIssueLimit : Int
  executeMemoryCommitLimit : Int
  executeInputBufferSize : Int
deriving DecidableEq, Repr

/-- The distinct `fatal(...)` calls of the constructor. -/
inductive ConfigError where
  | commitLimitTooSmall
  | issueLimitTooSmall
  | memoryIssueLimitTooSmall
  | memoryCommitLimitAboveCommitLimit
  | inputBufferSizeTooSmall
deriving DecidableEq, Repr

/-- The chain of `fatal` checks in `Execute::Execute` (the source checks
`executeInputBufferSize < 1` twice in a row; the duplicate collapses).
`none` means construction proceeds without aborting. -/
def executeConstructorCheck (p : MinorCPUParams) : Option ConfigError :=
  if p.executeCommitLimit < 1 then some .commitLimitTooSmall
  else if p.executeIssueLimit < 1 then some .issueLimitTooSmall
  else if p.executeMemoryIssueLimit < 1 then some .memoryIssueLimitTooSmall
  else if p.executeMemoryCommitLimit > p.executeCommitLimit then
    some .memoryCommitLimitAboveCommitLimit
  else if p.executeInputBufferSize < 1 then some .inputBufferSizeTooSmall
  else none

/-! ### Issue scheduler (`Execute::issue`) -/

/-- Per-opcode timing overrides of a functional unit (`MinorFUTiming`,
restricted to the fields `issue` reads). -/
structure MinorFUTiming where
  suppress : Bool := false
  extraCommitLat : Nat := 0
  /-- the optional deferred commit-delay expression, modelled by the value
  its later evaluation at commit would produce. -/
  extraCommitLatExpr : Option Nat := none
  extraAssumedLat : Nat := 0

/-- A functional-unit pipeline as seen by `issue`
(`FUPipeline` plus its immutable `MinorFU` description). -/
structure FUnit where
  /-- the op classes the unit `provides`. -/
  provides : List Nat := []
  alreadyPushed : Bool := false
  stalled : Bool := false
  canInsert : Bool := true
  /-- `description.opLat`, the unit's base pipeline latency. -/
  opLat : Nat := 1
  /-- `fu->findTiming(inst->staticInst)`, keyed by the instruction's
  machine encoding. -/
  findTiming : Nat → Option MinorFUTiming := fun _ => none

/-- The per-opcode timing `issue` consults for an instruction on a unit
(faults never look timings up). -/
def timingFor (u : FUnit) (inst : MInst) : Option MinorFUTiming :=
  if inst.fault.isSome then none else u.findTiming inst.machInst

/-- The configuration and cycle context of one `issue` call. -/
structure IssueEnv where
  funcUnits : List FUnit := []
  issueLimit : Nat := 2
  memoryIssueLimit : Nat := 1
  curCycle : Nat := 0
  streamSeqNum : Nat := 1
  allowEarlyMemIssue : Bool := true
  /-- `lsq.getLastMemBarrier()`. -/
  lastMemBarrier : Nat := 0
  /-- `noCostFUIndex = numFuncUnits + 1`. -/
  noCostFUIndex : Nat := 1

/-- `numFuncUnits`. -/
def IssueEnv.numFuncUnits (env : IssueEnv) : Nat := env.funcUnits.length

/-- The mutable state of one `issue` call: counters, the persistent
`fu_index` cursor, the scoreboard, and what was pushed where. -/
structure IssueState where
  scoreboard : Scoreboard := ⟨[]⟩
  numInstsIssued : Nat := 0
  numMemInstsIssued : Nat := 0
  numInstsDiscarded : Nat := 0
  fuIndex : Nat := 0
  /-- instructions pushed onto `inFlightInsts` this call, oldest first. -/
  inFlight : List MInst := []
  /-- instructions pushed onto `inFUMemInsts` this call, oldest first. -/
  inFUMem : List MInst := []
  /-- memory barriers marked up in the LSQ (`issuedMemBarrierInst`). -/
  lsqBarriersIssued : Nat := 0

/-- Result of scanning the functional units for one instruction
(the inner do-while of `issue`). -/
structure ScanResult where
  issued : Bool
  fuIndexAfter : Nat
  scoreboard : Scoreboard
  inst : MInst
  issuedMemRef : Bool := false
  /-- index of the unit the instruction was pushed into. -/
  pushedToFU : Option Nat := none
  /-- the unit the instruction was pushed into. -/
  chosenFU : Option FUnit := none

/-- The inner unit scan of `Execute::issue` for one (non-bubble, non-no-
cost) instruction: walk the units from index `i` upward and issue to the
first one that is capable, not already targeted, not stalled, has
insertion capacity, is not suppressed by extra decoding, and passes the
scoreboard predicate.  On success the instruction is decorated with the
unit index and the per-opcode extra commit delay, memory references are
queued for in-order LSQ issue (with the early-issue dependence when
allowed), and the destination registers are marked busy until
`curCycle + opLat + extraCommitLat + extraAssumedLat`. -/
def fuScanFrom (env : IssueEnv) (sb : Scoreboard) (inst : MInst) :
    Nat → List FUnit → ScanResult
  | i, [] => { issued := false, fuIndexAfter := i, scoreboard := sb,
               inst := inst }
  | i, u :: rest =>
    let fu_is_capable :=
      if inst.fault.isSome then true else u.provides.contains inst.opClass
    if !fu_is_capable || u.alreadyPushed then
      fuScanFrom env sb inst (i + 1) rest
    else if u.stalled then
      fuScanFrom env sb inst (i + 1) rest
    else if !u.canInsert then
      fuScanFrom env sb inst (i + 1) rest
    else
      let timing := timingFor u inst
      let suppressed := match timing with
        | some t => t.suppress
        | none => false
      if suppressed then
        fuScanFrom env sb inst (i + 1) rest
      else if !(sb.canInstIssue inst.srcRegs env.curCycle) then
        fuScanFrom env sb inst (i + 1) rest
      else
        let extra_dest_retire_lat := match timing with
          | some t => t.extraCommitLat
          | none => 0
        let extra_dest_retire_lat_expr := match timing with
          | some t => t.extraCommitLatExpr
          | none => none
        let extra_assumed_lat := match timing with
          | some t => t.extraAssumedLat
          | none => 0
        let issued_mem_ref := inst.isMemRef
        let inst1 := { inst with
          fuIndex := i,
          extraCommitDelay := extra_dest_retire_lat,
          extraCommitDelayExpr := extra_dest_retire_lat_expr }
        let inst2 :=
          if issued_mem_ref && env.allowEarlyMemIssue then
            { inst1 with
              instToWaitFor :=
                if env.lastMemBarrier > inst.execSeqNumToWaitFor then
                  env.lastMemBarrier
                else inst.execSeqNumToWaitFor,
              canEarlyIssue := true }
          else inst1
        let sb2 := sb.markupInstDests inst.destRegs
            (env.curCycle + u.opLat + extra_dest_retire_lat +
              extra_assumed_lat)
        { issued := true, fuIndexAfter := i + 1, scoreboard := sb2,
          inst := inst2, issuedMemRef := issued_mem_ref,
          pushedToFU := some i, chosenFU := some u }

/-- Outcome of processing one instruction of the batch
(one iteration of the outer do-while of `issue`). -/
structure IssueStepResult where
  st : IssueState
  issued : Bool
  discarded : Bool := false

/-- The post-decision accounting of one `issue` iteration (the
`if (issued)` block): barrier markup, the memory-issue counter, and —
in this source — `num_insts_issued` incremented for every non-discarded
instruction, bubbles included. -/
def issueAccounting (st : IssueState) (inst : MInst) (issued discarded
    issued_mem_ref : Bool) : IssueState :=
  if issued then
    let st1 :=
      if !discarded && inst.isInst && inst.isMemBarrier then
        { st with lsqBarriersIssued := st.lsqBarriersIssued + 1 }
      else st
    let st2 :=
      if issued_mem_ref then
        { st1 with numMemInstsIssued := st1.numMemInstsIssued + 1 }
      else st1
    if discarded then
      { st2 with numInstsDiscarded := st2.numInstsDiscarded + 1 }
    else
      { st2 with numInstsIssued := st2.numInstsIssued + 1 }
  else st

/-- One iteration of the outer do-while of `Execute::issue`: classify the
instruction (bubble / suspended thread / stale stream / restricted to
remaining microops / unit scan, with no-cost instructions issued to the
virtual no-cost unit) and apply the accounting. -/
def issueStep (env : IssueEnv) (st : IssueState) (inst : MInst)
    (only_issue_microops : Bool) : IssueStepResult :=
  if inst.isBubble then
    { st := issueAccounting st inst true false false, issued := true }
  else if inst.threadSuspended then
    { st := st, issued := false }
  else if inst.streamSeqNum != env.streamSeqNum then
    { st := issueAccounting st inst true true false, issued := true,
      discarded := true }
  else if inst.fault.isNone && only_issue_microops &&
      (!inst.isMicroop || !inst.isFirstMicroop) then
    { st := st, issued := false }
  else if inst.isNoCost then
    let inst1 := { inst with
      fuIndex := env.noCostFUIndex,
      extraCommitDelay := 0, extraCommitDelayExpr := none }
    let sb1 := st.scoreboard.markupInstDests inst.destRegs (env.curCycle + 0)
    let st1 := { st with
      scoreboard := sb1,
      fuIndex := env.noCostFUIndex + 1,
      inFlight := st.inFlight ++ [inst1] }
    { st := issueAccounting st1 inst1 true false false, issued := true }
  else
    let scan := fuScanFrom env st.scoreboard inst 0 env.funcUnits
    if scan.issued then
      let st1 := { st with
        scoreboard := scan.scoreboard,
        fuIndex := scan.fuIndexAfter,
        inFlight := st.inFlight ++ [scan.inst],
        inFUMem :=
          if scan.issuedMemRef then st.inFUMem ++ [scan.inst]
          else st.inFUMem }
      { st := issueAccounting st1 scan.inst true false scan.issuedMemRef,
        issued := true }
    else
      { st := { st with fuIndex := scan.fuIndexAfter }, issued := false }

/-- The outer do-while of `Execute::issue` over one input batch (the
single-batch case, `executeCycleInput` false): after each instruction the
loop continues only while the unit cursor has not run off the end, the
instruction issued, and neither per-call limit has been reached. -/
def issueLoop (env : IssueEnv) (only_issue_microops : Bool)
    (st : IssueState) : List MInst → IssueState
  | [] => st
  | inst :: rest =>
    let r := issueStep env st inst only_issue_microops
    if r.st.fuIndex != env.numFuncUnits && r.issued &&
        r.st.numInstsIssued != env.issueLimit &&
        r.st.numMemInstsIssued != env.memoryIssueLimit then
      issueLoop env only_issue_microops r.st rest
    else r.st

/-- `Execute::issue` on one input batch, starting from fresh per-call
counters and the given scoreboard. -/
def issue (env : IssueEnv) (only_issue_microops : Bool) (sb : Scoreboard)
    (batch : List MInst) : IssueState :=
  issueLoop env only_issue_microops { scoreboard := sb } batch

/-! ### Commit engine (`Execute::commit`, one loop iteration) -/

/-- The collaborator values and per-call parameters one iteration of the
commit loop reads. -/
structure CommitEnv where
  /-- the `only_commit_microops` parameter of `commit`. -/
  onlyCommitMicroops : Bool := false
  /-- the `discard` parameter of `commit` (forced drain discard). -/
  discard : Bool := false
  /-- `cpu.curCycle()`. -/
  now : Nat := 0
  memoryCommitLimit : Nat := 1
  numMemRefsCommitted : Nat := 0
  /-- `lsq.findResponse(inst)` for the queue head (consulted only when
  the head is in the LSQ). -/
  memResponse : Option MemResponse := none
  /-- `isInbetweenInsts() && tryPCEvents()`. -/
  pcEventsBranch : Bool := false
  /-- the thread's PC state at the start of the iteration. -/
  threadPC : Nat := 0
  /-- the outgoing branch slot at the start of the iteration
  (`none` = bubble). -/
  branchIn : Option BranchData := none
  /-- `inFUMemInsts->front()` (`none` when that queue is empty). -/
  inFUMemHead : Option MInst := none
  lsqCanRequest : Bool := true
  /-- `funcUnits[i]->front().inst` for each unit index. -/
  fuFront : Nat → MInst := fun _ => bubbleMInst
  /-- `lsq.getLastMemBarrier()`. -/
  lastMemBarrier : Nat := 0
  canPushIntoStoreBuffer : Bool := true
  noCostFUIndex : Nat := 1

/-- Everything one iteration of the commit loop decides and does: the
updated engine, the processed instruction (with its in-place updates),
and one flag per observable action. -/
structure CommitStepResult where
  eng : Engine
  inst : MInst
  threadPC : Nat
  branch : Option BranchData := none
  fault : Option Nat := none
  completedInst : Bool := false
  committedInst : Bool := false
  discardInst : Bool := false
  completedMemRef : Bool := false
  issuedMemRef : Bool := false
  earlyMemoryIssue : Bool := false
  /-- the opaque `staticInst->execute` was invoked. -/
  executeCalled : Bool := false
  /-- the opaque `staticInst->completeAcc` was invoked. -/
  completeAccCalled : Bool := false
  /-- the opaque `staticInst->initiateAcc` was invoked. -/
  initiateAccCalled : Bool := false
  /-- some fault's `invoke` ran against the thread. -/
  faultInvoked : Bool := false
  pushedFailedRequest : Bool := false
  lsqResponsePopped : Bool := false
  fatalError : Bool := false
  fuUnstalled : Bool := false
  numDiscardedOpsInc : Bool := false
  inFlightPopped : Bool := false
  inFUMemPopped : Bool := false
  completedMemBarrier : Bool := false

/-- The completion tail of `Execute::commitInst`: a completed instruction
records its prediction sequence number and, when it suspended its thread
with no branch generated and no interrupt pending, emits a
`SuspendThread` redirect. -/
def commitInstTail (inst : MInst) (base : CommitStepResult) :
    CommitStepResult :=
  if base.completedInst then
    let eng1 := { base.eng with
      lastPredictionSeqNum := inst.predictionSeqNum }
    if inst.fault.isNone && inst.threadSuspendedAfter &&
        base.branch.isNone && !inst.interrupted then
      let p := updateBranchData eng1 .SuspendThread inst base.threadPC
          base.branch
      { base with eng := p.1, branch := p.2 }
    else
      { base with eng := eng1 }
  else base

/-- `Execute::commitInst`: apply one ready instruction to the
architectural state.  A suspended thread (with no interrupt pending)
stalls; a fault instruction invokes its fault; a memory reference
initiates its access (an access fault either stalls an early issue or is
invoked at the head); a memory barrier waits for store-buffer space;
anything else runs the opaque execute operation; `commitInstTail` then
handles the completion bookkeeping. -/
def commitInst (eng : Engine) (inst : MInst) (early_memory_issue : Bool)
    (env : CommitEnv) : CommitStepResult :=
  if inst.threadSuspended && !inst.interrupted then
    { eng := eng, inst := inst, threadPC := env.threadPC,
      branch := env.branchIn, earlyMemoryIssue := early_memory_issue }
  else
    commitInstTail inst <|
      if inst.fault.isSome then
        let t := tryToBranch eng inst inst.fault env.threadPC env.branchIn
        { eng := t.eng, inst := inst, threadPC := t.threadPC,
          branch := t.branch, fault := inst.fault, completedInst := true,
          faultInvoked := true, earlyMemoryIssue := early_memory_issue }
      else if inst.isMemRef then
        if !env.lsqCanRequest then
          { eng := eng, inst := inst, threadPC := env.threadPC,
            branch := env.branchIn, earlyMemoryIssue := early_memory_issue }
        else if inst.initiateAccFault.isSome then
          if early_memory_issue then
            { eng := eng, inst := { inst with canEarlyIssue := false },
              threadPC := env.threadPC, branch := env.branchIn,
              fault := inst.initiateAccFault, initiateAccCalled := true,
              earlyMemoryIssue := early_memory_issue }
          else
            let t := tryToBranch eng inst inst.initiateAccFault
                env.threadPC env.branchIn
            { eng := t.eng, inst := inst, threadPC := t.threadPC,
              branch := t.branch, fault := inst.initiateAccFault,
              completedInst := true, issuedMemRef := true,
              initiateAccCalled := true, faultInvoked := true,
              earlyMemoryIssue := early_memory_issue }
        else
          { eng := eng, inst := inst, threadPC := env.threadPC,
            branch := env.branchIn, completedInst := true,
            issuedMemRef := true, initiateAccCalled := true,
            pushedFailedRequest := !inst.readPredicate,
            earlyMemoryIssue := early_memory_issue }
      else if inst.isInst && inst.isMemBarrier && !env.canPushIntoStoreBuffer
      then
        { eng := eng, inst := inst, threadPC := env.threadPC,
          branch := env.branchIn, earlyMemoryIssue := early_memory_issue }
      else
        let fault := inst.execFault
        let t := tryToBranch { eng with numOps := eng.numOps + 1 } inst
            fault env.threadPC env.branchIn
        { eng := t.eng, inst := inst, threadPC := t.threadPC,
          branch := t.branch, fault := fault, completedInst := true,
          committedInst := true, executeCalled := true,
          faultInvoked := fault.isSome,
          earlyMemoryIssue := early_memory_issue }

/-- The out-of-order early-memory-issue candidate of the commit loop
(`commit` lines guarded by `!inFUMemInsts->empty() && lsq.canRequest()`):
the head of the memory-reference queue may be sent to the LSQ ahead of
in-flight-queue order once it is at the end of its unit, allowed to issue
early, on the current stream, and its dependence is older than the
in-flight head. -/
def earlyIssueInst (eng : Engine) (env : CommitEnv)
    (headExecSeqNum : Nat) : Option MInst :=
  match env.inFUMemHead with
  | none => none
  | some head_mem_ref_inst =>
    if !env.lsqCanRequest then none
    else
      let fu_inst := env.fuFront head_mem_ref_inst.fuIndex
      if !fu_inst.isBubble && !fu_inst.inLSQ && fu_inst.canEarlyIssue &&
          eng.streamSeqNum == fu_inst.streamSeqNum &&
          headExecSeqNum > fu_inst.instToWaitFor then
        some fu_inst
      else none

/-- The `try_to_commit` block of the commit loop: discard a
stream-mismatched (or force-discarded) instruction, otherwise evaluate a
pending extra-commit-delay expression exactly once (values of 128 or more
are dropped), fold any extra commit delay into the minimum-commit-cycle
gate, and stall on incomplete memory barriers or an unreached gate before
handing the instruction to `commitInst`. -/
def commitTry (eng : Engine) (inst : MInst) (early_memory_issue : Bool)
    (env : CommitEnv) : CommitStepResult :=
  let discard_inst := inst.streamSeqNum != eng.streamSeqNum || env.discard
  if discard_inst then
    { eng := eng, inst := inst, threadPC := env.threadPC,
      branch := env.branchIn, completedInst := true, discardInst := true,
      earlyMemoryIssue := early_memory_issue }
  else
    let inst1 := match inst.extraCommitDelayExpr with
      | some extra_delay =>
        { inst with
          extraCommitDelay :=
            inst.extraCommitDelay +
              (if extra_delay < 128 then extra_delay else 0),
          extraCommitDelayExpr := none }
      | none => inst
    let inst2 :=
      if inst1.extraCommitDelay != 0 then
        { inst1 with
          minimumCommitCycle := env.now + inst1.extraCommitDelay,
          extraCommitDelay := 0 }
      else inst1
    if inst2.fault.isNone && inst2.isMemRef &&
        env.lastMemBarrier < inst2.execSeqNum && env.lastMemBarrier != 0
    then
      { eng := eng, inst := inst2, threadPC := env.threadPC,
        branch := env.branchIn, earlyMemoryIssue := early_memory_issue }
    else if env.now < inst2.minimumCommitCycle then
      { eng := eng, inst := inst2, threadPC := env.threadPC,
        branch := env.branchIn, earlyMemoryIssue := early_memory_issue }
    else
      commitInst eng inst2 early_memory_issue env

/-- After the `try_to_commit` block: a completed instruction that sits in
a real functional unit releases that unit's stall flag. -/
def finishTry (env : CommitEnv) (r : CommitStepResult) : CommitStepResult :=
  if r.completedInst && r.inst.fuIndex != env.noCostFUIndex then
    { r with fuUnstalled := true }
  else r

/-- A commit-loop iteration that makes no progress on the head. -/
def commitNoProgress (eng : Engine) (head : MInst) (env : CommitEnv) :
    CommitStepResult :=
  { eng := eng, inst := head, threadPC := env.threadPC,
    branch := env.branchIn }

/-- The `can_commit_insts` arm of the commit loop: try the early memory
issue, then a no-cost head, then retirement from the tail of the head's
functional unit, and run the `try_to_commit` block on whichever
instruction was selected. -/
def commitCoreInsts (eng : Engine) (head : MInst) (env : CommitEnv) :
    CommitStepResult :=
  let can_commit_insts :=
    !(env.onlyCommitMicroops && eng.lastCommitWasEndOfMacroop)
  if can_commit_insts then
    match earlyIssueInst eng env head.execSeqNum with
    | some fu_inst => finishTry env (commitTry eng fu_inst true env)
    | none =>
      if head.isNoCost then finishTry env (commitTry eng head false env)
      else if !head.inLSQ then
        let fu_inst := env.fuFront head.fuIndex
        if fu_inst.isBubble then commitNoProgress eng head env
        else if fu_inst.execSeqNum != head.execSeqNum then
          commitNoProgress eng head env
        else finishTry env (commitTry eng head false env)
      else commitNoProgress eng head env
  else commitNoProgress eng head env

/-- The memory-response arm of the commit loop: pop and discard a
stream-mismatched (or force-discarded) instruction's response, complete
it through `handleMemResponse` otherwise; when the per-call memory commit
limit is already reached, fall through to the `can_commit_insts` arm. -/
def commitCoreMemResponse (eng : Engine) (head : MInst) (env : CommitEnv)
    (response : MemResponse) : CommitStepResult :=
  if env.numMemRefsCommitted < env.memoryCommitLimit then
    let discard_inst :=
      head.streamSeqNum != eng.streamSeqNum || env.discard
    if discard_inst then
      { eng := eng, inst := head, threadPC := env.threadPC,
        branch := env.branchIn, completedInst := true,
        discardInst := true, completedMemRef := true,
        lsqResponsePopped := true }
    else
      let h := handleMemResponse eng head response env.branchIn
          env.threadPC
      { eng := h.eng, inst := head, threadPC := h.threadPC,
        branch := h.branch, fault := h.fault, completedInst := true,
        committedInst := true, completedMemRef := true,
        completeAccCalled := h.completeAccCalled,
        faultInvoked := h.faultInvoked,
        lsqResponsePopped := h.responsePopped,
        fatalError := h.fatalError }
  else commitCoreInsts eng head env

/-- The decision part of one commit-loop iteration: PC events first, then
a memory response for the head, then the `can_commit_insts` arm. -/
def commitCore (eng : Engine) (head : MInst) (env : CommitEnv) :
    CommitStepResult :=
  let mem_response := if head.inLSQ then env.memResponse else none
  if env.pcEventsBranch then
    let p := updateBranchData eng .UnpredictedBranch bubbleMInst
        env.threadPC env.branchIn
    { eng := p.1, inst := head, threadPC := env.threadPC, branch := p.2 }
  else
    match mem_response with
    | some response => commitCoreMemResponse eng head env response
    | none => commitCoreInsts eng head env

/-- The bookkeeping tail of one commit-loop iteration: count a discarded
op, mark an LSQ-issued memory reference as in the LSQ, pop it from the
memory-reference queue, and on full completion pop the in-flight head,
complete barriers, record the macro-op boundary and clear the
instruction's scoreboard entries. -/
def commitStepTail (env : CommitEnv) (r : CommitStepResult) :
    CommitStepResult :=
  let discInc := r.discardInst && r.fault.isNone
  let eng1 :=
    if discInc then
      { r.eng with numDiscardedOps := r.eng.numDiscardedOps + 1 }
    else r.eng
  let inst1 :=
    if r.issuedMemRef then { r.inst with fuIndex := 0, inLSQ := true }
    else r.inst
  let inFUMemPop := r.completedInst && inst1.isMemRef &&
    (match env.inFUMemHead with
     | some hm => hm.execSeqNum == inst1.execSeqNum
     | none => false)
  let popCond := r.completedInst && !(r.issuedMemRef && r.fault.isNone)
  let eng2 :=
    if popCond then
      { eng1 with
        lastCommitWasEndOfMacroop :=
          inst1.fault.isSome || inst1.isLastOpInInst,
        lastPredictionSeqNum := inst1.predictionSeqNum,
        scoreboard := eng1.scoreboard.clearInstDests inst1.destRegs }
    else eng1
  { r with
    eng := eng2, inst := inst1, numDiscardedOpsInc := discInc,
    inFlightPopped := popCond, inFUMemPopped := inFUMemPop,
    completedMemBarrier := popCond && inst1.isInst && inst1.isMemBarrier }

/-- One full iteration of the `Execute::commit` loop on the in-flight
queue head. -/
def commitStep (eng : Engine) (head : MInst) (env : CommitEnv) :
    CommitStepResult :=
  commitStepTail env (commitCore eng head env)

/-! ### Specification-side reference definitions and concrete inputs -/

/-- The branch-classification table exactly as the specification claim
words it: a map over `(predictedTaken, mustBranch, predictedTarget ==
actualTarget)` whose first row alone carries a "not forced" qualifier. -/
def claimedReasonTable (predictedTaken mustBranch targetsMatch
    forced : Bool) : Reason :=
  if predictedTaken && !forced && !mustBranch then .BadlyPredictedBranch
  else if predictedTaken && mustBranch && targetsMatch then
    .CorrectlyPredictedBranch
  else if predictedTaken && mustBranch && !targetsMatch then
    .BadlyPredictedBranchTarget
  else if !predictedTaken && mustBranch then .UnpredictedBranch
  else .NoBranch

/-- The branch-classification table as the source implements it: the
"not forced" qualifier scopes over all three predicted-taken rows, so a
forced predicted-taken branch falls through to `UnpredictedBranch`. -/
def sourceReasonTable (predictedTaken forced mustBranch
    targetsMatch : Bool) : Reason :=
  if predictedTaken && !forced then
    if !mustBranch then .BadlyPredictedBranch
    else if targetsMatch then .CorrectlyPredictedBranch
    else .BadlyPredictedBranchTarget
  else if mustBranch then .UnpredictedBranch
  else .NoBranch

/-- The per-opcode extra commit latency `issue` applies for `inst` on
unit `u` (0 when the unit carries no timing entry for it). -/
def extraCommitLatFor (u : FUnit) (inst : MInst) : Nat :=
  match timingFor u inst with
  | some t => t.extraCommitLat
  | none => 0

/-- The per-opcode extra assumed latency `issue` applies for `inst` on
unit `u` (0 when the unit carries no timing entry for it). -/
def extraAssumedLatFor (u : FUnit) (inst : MInst) : Nat :=
  match timingFor u inst with
  | some t => t.extraAssumedLat
  | none => 0

/-- A forced (serialize-after, last-op), predicted-taken branch whose
predicted target matches the actual target: the probe input for the
classification table. -/
def instForcedTaken : MInst :=
  { predictedTaken := true, isSerializeAfter := true,
    isLastOpInInst := true, pc := 100, advancedPC := 104,
    predictedTarget := 104 }

/-- One all-class functional unit with the default latency. -/
def fuAllOps : FUnit := { provides := [7] }

/-- An issue environment with one unit and an issue limit of 1. -/
def envOneIssue : IssueEnv :=
  { funcUnits := [fuAllOps], issueLimit := 1, noCostFUIndex := 2 }

/-- A plain issuable instruction for `envOneIssue`. -/
def instIssuable : MInst :=
  { opClass := 7, streamSeqNum := 1, destRegs := [3] }

/-- A stale-stream head instruction sitting at the tail of unit 0. -/
def headStale : MInst :=
  { streamSeqNum := 3, execSeqNum := 10, fuIndex := 0, destRegs := [5] }

/-- A commit environment whose unit 0 tail holds `headStale`. -/
def envStale : CommitEnv :=
  { fuFront := fun i => if i == 0 then headStale else bubbleMInst,
    noCostFUIndex := 2 }

/-- An engine one stream ahead of `headStale`, with a busy scoreboard
entry for its destination register. -/
def engStale : Engine :=
  { streamSeqNum := 4, scoreboard := ⟨[(5, 9)]⟩ }

/-- A head instruction carrying an extra-commit-delay expression that
evaluates to 128. -/
def headDelay128 : MInst :=
  { streamSeqNum := 1, execSeqNum := 10, fuIndex := 0,
    extraCommitDelayExpr := some 128, pc := 0, advancedPC := 4 }

/-- A commit environment at cycle 5 whose unit 0 tail holds
`headDelay128`. -/
def envDelay128 : CommitEnv :=
  { now := 5, threadPC := 0,
    fuFront := fun i => if i == 0 then headDelay128 else bubbleMInst,
    noCostFUIndex := 2 }

/-- A memory load waiting in the LSQ. -/
def headLoad : MInst :=
  { streamSeqNum := 1, inLSQ := true, isMemRef := true, isLoad := true }

/-- A commit environment holding a faulting response for `headLoad`. -/
def envFaultResponse : CommitEnv :=
  { memResponse := some { fault := some 42 } }

end Minor

/-! ## Helper lemmas -/

namespace Minor

theorem updateBranchData_emit (eng : Engine) (reason : Reason)
    (inst : MInst) (target : Nat) (brIn : Option BranchData)
    (h : reason ≠ .NoBranch) :
    (updateBranchData eng reason inst target brIn).2 =
      some { reason := reason,
             newStreamSeqNum :=
               (updateBranchData eng reason inst target brIn).1.streamSeqNum,
             predictionSeqNum :=
               if inst.isBubble then eng.lastPredictionSeqNum
               else inst.predictionSeqNum,
             target := target } := by
  simp [updateBranchData, h]

theorem tryToBranch_some_fault_emits (eng : Engine) (inst : MInst)
    (f : Nat) (pc : Nat) (brIn : Option BranchData) :
    (tryToBranch eng inst (some f) pc brIn).reason ≠ .NoBranch ∧
    Option.map BranchData.reason
        (tryToBranch eng inst (some f) pc brIn).branch
      = some (tryToBranch eng inst (some f) pc brIn).reason := by
  cases hpt : inst.predictedTaken <;>
    cases hfb : forceBranch inst <;>
      cases hmb : (inst.pc != pc) <;>
        cases hm : (inst.predictedTarget == pc) <;>
          (try simp_all [tryToBranch, updateBranchData])

theorem readyCycle_markupInstDests (sb : Scoreboard) (dests : List Nat)
    (c : Nat) (d : Nat) (h : d ∈ dests) :
    (sb.markupInstDests dests c).readyCycle d = c := by
  unfold Scoreboard.markupInstDests Scoreboard.readyCycle
  induction dests with
  | nil => cases h
  | cons a t ih =>
    simp only [List.map_cons, List.cons_append, List.find?]
    by_cases hd : a = d
    · simp [hd]
    · have : (a == d) = false := by simp [hd]
      simp only [this]
      rcases List.mem_cons.mp h with h1 | h2
      · exact absurd h1.symm hd
      · exact ih h2

theorem readyCycle_clearInstDests (sb : Scoreboard) (dests : List Nat)
    (d : Nat) (h : d ∈ dests) :
    (sb.clearInstDests dests).readyCycle d = 0 := by
  unfold Scoreboard.clearInstDests Scoreboard.readyCycle
  have hfind : ∀ l : List (Nat × Nat),
      (l.filter (fun p => !(dests.contains p.1))).find?
        (fun p => p.1 == d) = none := by
    intro l
    induction l with
    | nil => rfl
    | cons p t ih =>
      by_cases hc : p.1 ∈ dests
      · have : (dests.contains p.1) = true := List.elem_iff.mpr hc
        simp only [List.filter_cons, this, Bool.not_true,
          Bool.false_eq_true, if_false]
        exact ih
      · have hcc : (dests.contains p.1) = false := by
          rw [Bool.eq_false_iff]
          intro hx; exact hc (List.elem_iff.mp hx)
        have hne : (p.1 == d) = false := by
          simp only [beq_eq_false_iff_ne, ne_eq]
          intro he; exact hc (he ▸ h)
        simp only [List.filter_cons, hcc, Bool.not_false, if_true,
          List.find?, hne]
        exact ih
  rw [hfind sb.busyUntil]

theorem commitInstTail_fields (inst : MInst) (b : CommitStepResult) :
    (commitInstTail inst b).discardInst = b.discardInst ∧
    (commitInstTail inst b).completedInst = b.completedInst ∧
    (commitInstTail inst b).issuedMemRef = b.issuedMemRef ∧
    (commitInstTail inst b).fault = b.fault ∧
    (commitInstTail inst b).executeCalled = b.executeCalled ∧
    (commitInstTail inst b).committedInst = b.committedInst ∧
    (commitInstTail inst b).inst = b.inst := by
  unfold commitInstTail
  split
  · split <;> exact ⟨rfl, rfl, rfl, rfl, rfl, rfl, rfl⟩
  · exact ⟨rfl, rfl, rfl, rfl, rfl, rfl, rfl⟩

theorem commitInstTail_executeCalled (inst : MInst)
    (b : CommitStepResult) :
    (commitInstTail inst b).executeCalled = b.executeCalled :=
  (commitInstTail_fields inst b).2.2.2.2.1

theorem commitInstTail_committedInst (inst : MInst)
    (b : CommitStepResult) :
    (commitInstTail inst b).committedInst = b.committedInst :=
  (commitInstTail_fields inst b).2.2.2.2.2.1

theorem commitInstTail_inst (inst : MInst) (b : CommitStepResult) :
    (commitInstTail inst b).inst = b.inst :=
  (commitInstTail_fields inst b).2.2.2.2.2.2

theorem commitInst_no_discard (eng : Engine) (inst : MInst) (early : Bool)
    (env : CommitEnv) :
    (commitInst eng inst early env).discardInst = false := by
  unfold commitInst
  split
  · rfl
  · rw [(commitInstTail_fields inst _).1]
    repeat' split
    all_goals rfl

theorem commitTry_not_discard (eng : Engine) (inst : MInst) (early : Bool)
    (env : CommitEnv)
    (hd : (inst.streamSeqNum != eng.streamSeqNum || env.discard)
      = false) :
    (commitTry eng inst early env).discardInst = false := by
  simp only [commitTry, hd, Bool.false_eq_true, if_false]
  repeat' split
  all_goals first
    | rfl
    | exact commitInst_no_discard _ _ _ _

theorem commitTry_discard (eng : Engine) (inst : MInst) (early : Bool)
    (env : CommitEnv)
    (h : (commitTry eng inst early env).discardInst = true) :
    (commitTry eng inst early env).completedInst = true ∧
    (commitTry eng inst early env).issuedMemRef = false ∧
    (commitTry eng inst early env).fault = none := by
  by_cases hd : (inst.streamSeqNum != eng.streamSeqNum || env.discard)
      = true
  · simp [commitTry, hd]
  · rw [Bool.not_eq_true] at hd
    rw [commitTry_not_discard eng inst early env hd] at h
    exact absurd h (by simp)

theorem commitTry_discard_eq (eng : Engine) (inst : MInst) (early : Bool)
    (env : CommitEnv)
    (hd : (inst.streamSeqNum != eng.streamSeqNum || env.discard)
      = true) :
    commitTry eng inst early env =
      { eng := eng, inst := inst, threadPC := env.threadPC,
        branch := env.branchIn, completedInst := true, discardInst := true,
        earlyMemoryIssue := early } := by
  simp only [commitTry, hd, if_true]

theorem finishTry_fields (env : CommitEnv) (r : CommitStepResult) :
    (finishTry env r).discardInst = r.discardInst ∧
    (finishTry env r).completedInst = r.completedInst ∧
    (finishTry env r).issuedMemRef = r.issuedMemRef ∧
    (finishTry env r).fault = r.fault ∧
    (finishTry env r).executeCalled = r.executeCalled ∧
    (finishTry env r).committedInst = r.committedInst ∧
    (finishTry env r).inst = r.inst ∧
    (finishTry env r).eng = r.eng ∧
    (finishTry env r).completeAccCalled = r.completeAccCalled ∧
    (finishTry env r).initiateAccCalled = r.initiateAccCalled ∧
    (finishTry env r).faultInvoked = r.faultInvoked := by
  unfold finishTry
  split <;>
    exact ⟨rfl, rfl, rfl, rfl, rfl, rfl, rfl, rfl, rfl, rfl, rfl⟩

theorem finishTry_commitTry_discard (eng : Engine) (inst : MInst)
    (early : Bool) (env : CommitEnv)
    (h : (finishTry env (commitTry eng inst early env)).discardInst
      = true) :
    (finishTry env (commitTry eng inst early env)).completedInst = true ∧
    (finishTry env (commitTry eng inst early env)).issuedMemRef = false ∧
    (finishTry env (commitTry eng inst early env)).fault = none := by
  rw [(finishTry_fields env _).1] at h
  rw [(finishTry_fields env _).2.1, (finishTry_fields env _).2.2.1,
    (finishTry_fields env _).2.2.2.1]
  exact commitTry_discard _ _ _ _ h

theorem commitCoreInsts_discard (eng : Engine) (head : MInst)
    (env : CommitEnv)
    (h : (commitCoreInsts eng head env).discardInst = true) :
    (commitCoreInsts eng head env).completedInst = true ∧
    (commitCoreInsts eng head env).issuedMemRef = false ∧
    (commitCoreInsts eng head env).fault = none := by
  by_cases hcc : (env.onlyCommitMicroops && eng.lastCommitWasEndOfMacroop)
      = true
  · simp only [commitCoreInsts, hcc, Bool.not_true, Bool.false_eq_true,
      if_false, commitNoProgress] at h
  · rw [Bool.not_eq_true] at hcc
    cases hEarly : earlyIssueInst eng env head.execSeqNum with
    | some fu =>
      simp only [commitCoreInsts, hcc, hEarly, Bool.not_false, if_true]
        at h ⊢
      exact finishTry_commitTry_discard _ _ _ _ h
    | none =>
      by_cases hnc : head.isNoCost = true
      · simp only [commitCoreInsts, hcc, hEarly, hnc, Bool.not_false,
          if_true] at h ⊢
        exact finishTry_commitTry_discard _ _ _ _ h
      · rw [Bool.not_eq_true] at hnc
        by_cases hlsq : head.inLSQ = true
        · simp only [commitCoreInsts, hcc, hEarly, hnc, hlsq,
            Bool.not_false, Bool.not_true, Bool.false_eq_true, if_true,
            if_false, commitNoProgress] at h
        · rw [Bool.not_eq_true] at hlsq
          by_cases hbub : (env.fuFront head.fuIndex).isBubble = true
          · simp only [commitCoreInsts, hcc, hEarly, hnc, hlsq, hbub,
              Bool.not_false, Bool.false_eq_true, if_true, if_false,
              commitNoProgress] at h
          · rw [Bool.not_eq_true] at hbub
            by_cases hseq : ((env.fuFront head.fuIndex).execSeqNum !=
                head.execSeqNum) = true
            · simp only [commitCoreInsts, hcc, hEarly, hnc, hlsq, hbub,
                hseq, Bool.not_false, Bool.false_eq_true, if_true,
                if_false, commitNoProgress] at h
            · rw [Bool.not_eq_true] at hseq
              simp only [commitCoreInsts, hcc, hEarly, hnc, hlsq, hbub,
                hseq, Bool.not_false, Bool.false_eq_true, if_true,
                if_false] at h ⊢
              exact finishTry_commitTry_discard _ _ _ _ h

theorem commitCoreMemResponse_discard (eng : Engine) (head : MInst)
    (env : CommitEnv) (response : MemResponse)
    (h : (commitCoreMemResponse eng head env response).discardInst
      = true) :
    (commitCoreMemResponse eng head env response).completedInst = true ∧
    (commitCoreMemResponse eng head env response).issuedMemRef = false ∧
    (commitCoreMemResponse eng head env response).fault = none := by
  by_cases hlim : env.numMemRefsCommitted < env.memoryCommitLimit
  · by_cases hd : (head.streamSeqNum != eng.streamSeqNum || env.discard)
        = true
    · simp only [commitCoreMemResponse, hlim, hd, if_true]
      exact ⟨by trivial, by trivial, by trivial⟩
    · rw [Bool.not_eq_true] at hd
      simp only [commitCoreMemResponse, hlim, hd, Bool.false_eq_true,
        if_true, if_false] at h
  · simp only [commitCoreMemResponse, hlim, if_false] at h ⊢
    exact commitCoreInsts_discard _ _ _ h

theorem commitCore_discard (eng : Engine) (head : MInst) (env : CommitEnv)
    (h : (commitCore eng head env).discardInst = true) :
    (commitCore eng head env).completedInst = true ∧
    (commitCore eng head env).issuedMemRef = false ∧
    (commitCore eng head env).fault = none := by
  by_cases hpce : env.pcEventsBranch = true
  · simp only [commitCore, hpce, if_true] at h
    exact absurd h (by simp [Bool.false_eq_true])
  · rw [Bool.not_eq_true] at hpce
    by_cases hlsq : head.inLSQ = true
    · cases hresp : env.memResponse with
      | some response =>
        simp only [commitCore, hpce, hlsq, hresp, Bool.false_eq_true,
          if_true, if_false] at h ⊢
        exact commitCoreMemResponse_discard _ _ _ _ h
      | none =>
        simp only [commitCore, hpce, hlsq, hresp, Bool.false_eq_true,
          if_true, if_false] at h ⊢
        exact commitCoreInsts_discard _ _ _ h
    · rw [Bool.not_eq_true] at hlsq
      simp only [commitCore, hpce, hlsq, Bool.false_eq_true, if_false]
        at h ⊢
      exact commitCoreInsts_discard _ _ _ h

theorem commitStepTail_discard_fields (env : CommitEnv)
    (r : CommitStepResult) :
    (commitStepTail env r).discardInst = r.discardInst ∧
    (commitStepTail env r).completedInst = r.completedInst ∧
    (commitStepTail env r).inFlightPopped =
      (r.completedInst && !(r.issuedMemRef && r.fault.isNone)) := by
  unfold commitStepTail
  exact ⟨rfl, rfl, rfl⟩

theorem commitStepTail_discard_spec (env : CommitEnv)
    (r : CommitStepResult) (hc : r.completedInst = true)
    (hm : r.issuedMemRef = false) (hf : r.fault = none)
    (hd : r.discardInst = true) :
    (commitStepTail env r).numDiscardedOpsInc = true ∧
    (commitStepTail env r).eng.numDiscardedOps =
      r.eng.numDiscardedOps + 1 ∧
    (commitStepTail env r).inFlightPopped = true ∧
    (commitStepTail env r).eng.scoreboard =
      r.eng.scoreboard.clearInstDests r.inst.destRegs ∧
    (commitStepTail env r).executeCalled = r.executeCalled ∧
    (commitStepTail env r).completeAccCalled = r.completeAccCalled ∧
    (commitStepTail env r).initiateAccCalled = r.initiateAccCalled ∧
    (commitStepTail env r).faultInvoked = r.faultInvoked ∧
    (commitStepTail env r).discardInst = true ∧
    (commitStepTail env r).completedInst = true ∧
    (commitStepTail env r).inst = r.inst := by
  simp [commitStepTail, hc, hm, hf, hd]

theorem commitStepTail_inst_fields (env : CommitEnv)
    (r : CommitStepResult) :
    (commitStepTail env r).inst.extraCommitDelayExpr =
      r.inst.extraCommitDelayExpr ∧
    (commitStepTail env r).inst.extraCommitDelay =
      r.inst.extraCommitDelay ∧
    (commitStepTail env r).inst.minimumCommitCycle =
      r.inst.minimumCommitCycle ∧
    (commitStepTail env r).completedInst = r.completedInst ∧
    (commitStepTail env r).executeCalled = r.executeCalled ∧
    (commitStepTail env r).committedInst = r.committedInst := by
  unfold commitStepTail
  refine ⟨?_, ?_, ?_, rfl, rfl, rfl⟩ <;> (split <;> rfl)

theorem commitCoreInsts_try_head (eng : Engine) (head : MInst)
    (env : CommitEnv)
    (hcc : (env.onlyCommitMicroops && eng.lastCommitWasEndOfMacroop)
      = false)
    (hearly : earlyIssueInst eng env head.execSeqNum = none)
    (hsel : head.isNoCost = true ∨
      (head.inLSQ = false ∧ (env.fuFront head.fuIndex).isBubble = false ∧
       ((env.fuFront head.fuIndex).execSeqNum != head.execSeqNum)
         = false)) :
    commitCoreInsts eng head env =
      finishTry env (commitTry eng head false env) := by
  rcases hsel with hnc | ⟨hlsq, hbub, hseq⟩
  · simp [commitCoreInsts, hcc, hearly, hnc]
  · by_cases hnc : head.isNoCost = true
    · simp [commitCoreInsts, hcc, hearly, hnc]
    · rw [Bool.not_eq_true] at hnc
      simp [commitCoreInsts, hcc, hearly, hnc, hlsq, hbub, hseq]

theorem commitCore_insts_arm (eng : Engine) (head : MInst)
    (env : CommitEnv) (hpce : env.pcEventsBranch = false)
    (hmem : (if head.inLSQ then env.memResponse else none) = none ∨
            ¬ env.numMemRefsCommitted < env.memoryCommitLimit) :
    commitCore eng head env = commitCoreInsts eng head env := by
  by_cases hlsq : head.inLSQ = true
  · cases hresp : env.memResponse with
    | none => simp [commitCore, hpce, hlsq, hresp]
    | some r =>
      rcases hmem with hmem | hlim
      · rw [hlsq] at hmem; simp [hresp] at hmem
      · simp [commitCore, commitCoreMemResponse, hpce, hlsq, hresp, hlim]
  · rw [Bool.not_eq_true] at hlsq
    simp [commitCore, hpce, hlsq]

theorem commitInst_inst_preserved (eng : Engine) (inst : MInst)
    (early : Bool) (env : CommitEnv) :
    (commitInst eng inst early env).inst = inst ∨
    (commitInst eng inst early env).inst =
      { inst with canEarlyIssue := false } := by
  unfold commitInst
  split
  · exact Or.inl rfl
  · rw [commitInstTail_inst]
    repeat' split
    all_goals first | exact Or.inl rfl | exact Or.inr rfl

theorem commitInst_execute_path (eng : Engine) (inst : MInst)
    (early : Bool) (env : CommitEnv)
    (hsusp : inst.threadSuspended = false)
    (hfault : inst.fault = none)
    (hmem : inst.isMemRef = false)
    (hbar : inst.isMemBarrier = false) :
    (commitInst eng inst early env).executeCalled = true ∧
    (commitInst eng inst early env).committedInst = true := by
  unfold commitInst
  simp only [hsusp, Bool.false_and, Bool.false_eq_true, if_false,
    hfault, Option.isSome_none, hmem, hbar, Bool.and_false,
    Bool.false_and, Bool.and_true, commitInstTail_executeCalled,
    commitInstTail_committedInst]
  exact ⟨trivial, trivial⟩

theorem commitTry_expr_spec (eng : Engine) (head : MInst) (early : Bool)
    (env : CommitEnv) (v : Nat)
    (hd : (head.streamSeqNum != eng.streamSeqNum || env.discard)
      = false)
    (hexpr : head.extraCommitDelayExpr = some v) :
    (commitTry eng head early env).inst.extraCommitDelayExpr = none ∧
    (commitTry eng head early env).inst.extraCommitDelay = 0 ∧
    (head.extraCommitDelay + (if v < 128 then v else 0) ≠ 0 →
      (commitTry eng head early env).inst.minimumCommitCycle =
        env.now + (head.extraCommitDelay + (if v < 128 then v else 0)) ∧
      (commitTry eng head early env).completedInst = false ∧
      (commitTry eng head early env).executeCalled = false) ∧
    (head.extraCommitDelay + (if v < 128 then v else 0) = 0 →
      (commitTry eng head early env).inst.minimumCommitCycle =
        head.minimumCommitCycle ∧
      (env.now < head.minimumCommitCycle →
        (commitTry eng head early env).completedInst = false ∧
        (commitTry eng head early env).executeCalled = false) ∧
      (¬ env.now < head.minimumCommitCycle →
        head.threadSuspended = false → head.fault = none →
        head.isMemRef = false → head.isMemBarrier = false →
        (commitTry eng head early env).executeCalled = true ∧
        (commitTry eng head early env).committedInst = true)) := by
  by_cases hdl : head.extraCommitDelay + (if v < 128 then v else 0) = 0
  · have hne : ((head.extraCommitDelay +
        (if v < 128 then v else 0) : Nat) != 0) = false := by
      simp [hdl]
    simp only [commitTry, hd, Bool.false_eq_true, if_false, hexpr, hne]
    by_cases hbar : (head.fault.isNone && head.isMemRef &&
        decide (env.lastMemBarrier < head.execSeqNum) &&
        (env.lastMemBarrier != 0)) = true
    · rw [if_pos hbar]
      refine ⟨rfl, hdl, fun h => absurd hdl h,
        fun _ => ⟨rfl, fun _ => ⟨rfl, rfl⟩,
          fun _ _ _ hmem _ => ?_⟩⟩
      rw [hmem] at hbar
      simp at hbar
    · rw [if_neg hbar]
      by_cases hmin : env.now < head.minimumCommitCycle
      · rw [if_pos hmin]
        exact ⟨rfl, hdl, fun h => absurd hdl h,
          fun _ => ⟨rfl, fun _ => ⟨rfl, rfl⟩,
            fun hm _ _ _ _ => absurd hmin hm⟩⟩
      · rw [if_neg hmin]
        refine ⟨?_, ?_, fun h => absurd hdl h,
          fun _ => ⟨?_, fun hm => absurd hm hmin,
            fun _ hsusp hfault hmem hbar2 =>
              commitInst_execute_path eng _ early env hsusp hfault
                hmem hbar2⟩⟩
        · rcases commitInst_inst_preserved eng _ early env with hi | hi <;>
            rw [hi]
        · rcases commitInst_inst_preserved eng _ early env with hi | hi <;>
            (rw [hi]; exact hdl)
        · rcases commitInst_inst_preserved eng _ early env with hi | hi <;>
            rw [hi]
  · have hne : ((head.extraCommitDelay +
        (if v < 128 then v else 0) : Nat) != 0) = true := by
      simp [hdl]
    have hlt : env.now < env.now +
        (head.extraCommitDelay + (if v < 128 then v else 0)) := by omega
    simp only [commitTry, hd, Bool.false_eq_true, if_false, hexpr, hne,
      if_true]
    by_cases hbar : (head.fault.isNone && head.isMemRef &&
        decide (env.lastMemBarrier < head.execSeqNum) &&
        (env.lastMemBarrier != 0)) = true
    · rw [if_pos hbar]
      exact ⟨rfl, rfl, fun _ => ⟨rfl, rfl, rfl⟩, fun h => absurd h hdl⟩
    · rw [if_neg hbar, if_pos hlt]
      exact ⟨rfl, rfl, fun _ => ⟨rfl, rfl, rfl⟩, fun h => absurd h hdl⟩

theorem fuScanFrom_chosen_spec (env : IssueEnv) (inst : MInst)
    (sb : Scoreboard) (u : FUnit) :
    ∀ (us : List FUnit) (j : Nat),
      (fuScanFrom env sb inst j us).chosenFU = some u →
      (fuScanFrom env sb inst j us).issued = true ∧
      (fuScanFrom env sb inst j us).scoreboard =
        sb.markupInstDests inst.destRegs
          (env.curCycle + u.opLat + extraCommitLatFor u inst +
            extraAssumedLatFor u inst) := by
  intro us
  induction us with
  | nil =>
    intro j h
    simp [fuScanFrom] at h
  | cons u0 rest ih =>
    intro j
    by_cases hc1 : ((!(if inst.fault.isSome = true then true
        else u0.provides.contains inst.opClass)) || u0.alreadyPushed)
        = true
    · have e : fuScanFrom env sb inst j (u0 :: rest) =
          fuScanFrom env sb inst (j + 1) rest := by
        simp only [fuScanFrom, hc1, if_true]
      rw [e]; exact ih (j + 1)
    · rw [Bool.not_eq_true] at hc1
      by_cases hc2 : u0.stalled = true
      · have e : fuScanFrom env sb inst j (u0 :: rest) =
            fuScanFrom env sb inst (j + 1) rest := by
          simp only [fuScanFrom, hc1, hc2, Bool.false_eq_true, if_false,
            if_true]
        rw [e]; exact ih (j + 1)
      · rw [Bool.not_eq_true] at hc2
        by_cases hc3 : (!u0.canInsert) = true
        · have e : fuScanFrom env sb inst j (u0 :: rest) =
              fuScanFrom env sb inst (j + 1) rest := by
            simp only [fuScanFrom, hc1, hc2, hc3, Bool.false_eq_true,
              if_false, if_true]
          rw [e]; exact ih (j + 1)
        · rw [Bool.not_eq_true] at hc3
          by_cases hc4 : (match timingFor u0 inst with
              | some t => t.suppress
              | none => false) = true
          · have e : fuScanFrom env sb inst j (u0 :: rest) =
                fuScanFrom env sb inst (j + 1) rest := by
              simp only [fuScanFrom, hc1, hc2, hc3, hc4,
                Bool.false_eq_true, if_false, if_true]
            rw [e]; exact ih (j + 1)
          · rw [Bool.not_eq_true] at hc4
            by_cases hc5 : (!sb.canInstIssue inst.srcRegs env.curCycle)
                = true
            · have e : fuScanFrom env sb inst j (u0 :: rest) =
                  fuScanFrom env sb inst (j + 1) rest := by
                simp only [fuScanFrom, hc1, hc2, hc3, hc4, hc5,
                  Bool.false_eq_true, if_false, if_true]
              rw [e]; exact ih (j + 1)
            · rw [Bool.not_eq_true] at hc5
              intro h
              have hch : (fuScanFrom env sb inst j (u0 :: rest)).chosenFU
                  = some u0 := by
                simp only [fuScanFrom, hc1, hc2, hc3, hc4, hc5,
                  Bool.false_eq_true, if_false]
              rw [hch] at h
              have hu : u0 = u := by
                simpa using h
              subst hu
              constructor
              · simp only [fuScanFrom, hc1, hc2, hc3, hc4, hc5,
                  Bool.false_eq_true, if_false]
              · simp only [fuScanFrom, hc1, hc2, hc3, hc4, hc5,
                  Bool.false_eq_true, if_false, extraCommitLatFor,
                  extraAssumedLatFor]

theorem issueAccounting_scoreboard (st : IssueState) (inst : MInst)
    (a b c : Bool) :
    (issueAccounting st inst a b c).scoreboard = st.scoreboard := by
  unfold issueAccounting
  repeat' split
  all_goals rfl

end Minor

/-! ## Claim theorems -/

namespace Minor

/-- C1: an instruction reaching a commit decision whose stream sequence
number differs from the engine's current one is discarded: it is marked
completed, none of the opaque execute/completeAcc/initiateAcc operations
nor any fault invocation runs, the discarded-op statistic is bumped, the
in-flight queue head is popped, and the scoreboard entries of its
destination registers are cleared. -/
theorem commit_discards_stale_stream_head (eng : Engine) (head : MInst)
    (env : CommitEnv)
    (hstream : (head.streamSeqNum != eng.streamSeqNum) = true)
    (hpce : env.pcEventsBranch = false)
    (hcase :
      (head.inLSQ = true ∧ env.memResponse.isSome = true ∧
        env.numMemRefsCommitted < env.memoryCommitLimit) ∨
      (((if head.inLSQ then env.memResponse else none) = none ∨
          ¬ env.numMemRefsCommitted < env.memoryCommitLimit) ∧
        (env.onlyCommitMicroops && eng.lastCommitWasEndOfMacroop)
          = false ∧
        earlyIssueInst eng env head.execSeqNum = none ∧
        (head.isNoCost = true ∨
          (head.inLSQ = false ∧
            (env.fuFront head.fuIndex).isBubble = false ∧
            ((env.fuFront head.fuIndex).execSeqNum != head.execSeqNum) =
              false)))) :
    (commitStep eng head env).discardInst = true ∧
    (commitStep eng head env).completedInst = true ∧
    (commitStep eng head env).executeCalled = false ∧
    (commitStep eng head env).completeAccCalled = false ∧
    (commitStep eng head env).initiateAccCalled = false ∧
    (commitStep eng head env).faultInvoked = false ∧
    (commitStep eng head env).numDiscardedOpsInc = true ∧
    (commitStep eng head env).eng.numDiscardedOps =
      eng.numDiscardedOps + 1 ∧
    (commitStep eng head env).inFlightPopped = true ∧
    ∀ d ∈ head.destRegs,
      (commitStep eng head env).eng.scoreboard.readyCycle d = 0 := by
  have hdisc : (head.streamSeqNum != eng.streamSeqNum || env.discard)
      = true := by simp [hstream]
  have hcore : commitCore eng head env =
      { eng := eng, inst := head, threadPC := env.threadPC,
        branch := env.branchIn, completedInst := true, discardInst := true,
        completedMemRef := true, lsqResponsePopped := true } ∨
      commitCore eng head env =
        finishTry env (commitTry eng head false env) := by
    rcases hcase with ⟨hlsq, hsome, hlim⟩ | ⟨hmem, hcc, hearly, hsel⟩
    · left
      cases hresp : env.memResponse with
      | none => rw [hresp] at hsome; simp at hsome
      | some r =>
        simp [commitCore, commitCoreMemResponse, hpce, hlsq, hresp, hlim,
          hdisc]
    · right
      rw [commitCore_insts_arm eng head env hpce hmem]
      exact commitCoreInsts_try_head eng head env hcc hearly hsel
  unfold commitStep
  rcases hcore with hcore | hcore <;> rw [hcore]
  · obtain h := commitStepTail_discard_spec env
      { eng := eng, inst := head, threadPC := env.threadPC,
        branch := env.branchIn, completedInst := true, discardInst := true,
        completedMemRef := true, lsqResponsePopped := true }
      rfl rfl rfl rfl
    refine ⟨h.2.2.2.2.2.2.2.2.1, h.2.2.2.2.2.2.2.2.2.1, ?_, ?_, ?_, ?_,
      h.1, ?_, h.2.2.1, ?_⟩
    · rw [h.2.2.2.2.1]
    · rw [h.2.2.2.2.2.1]
    · rw [h.2.2.2.2.2.2.1]
    · rw [h.2.2.2.2.2.2.2.1]
    · rw [h.2.1]
    · intro d hd
      rw [h.2.2.2.1]
      exact readyCycle_clearInstDests _ _ _ hd
  · rw [commitTry_discard_eq eng head false env hdisc]
    have hf := finishTry_fields env
      { eng := eng, inst := head, threadPC := env.threadPC,
        branch := env.branchIn, completedInst := true, discardInst := true,
        earlyMemoryIssue := false }
    obtain h := commitStepTail_discard_spec env _ (hf.2.1.trans rfl)
      (hf.2.2.1.trans rfl) (hf.2.2.2.1.trans rfl) (hf.1.trans rfl)
    refine ⟨h.2.2.2.2.2.2.2.2.1, h.2.2.2.2.2.2.2.2.2.1, ?_, ?_, ?_, ?_,
      h.1, ?_, h.2.2.1, ?_⟩
    · rw [h.2.2.2.2.1, hf.2.2.2.2.1]
    · rw [h.2.2.2.2.2.1, hf.2.2.2.2.2.2.2.2.1]
    · rw [h.2.2.2.2.2.2.1, hf.2.2.2.2.2.2.2.2.2.1]
    · rw [h.2.2.2.2.2.2.2.1, hf.2.2.2.2.2.2.2.2.2.2]
    · rw [h.2.1, hf.2.2.2.2.2.2.2.1]
    · intro d hd
      rw [h.2.2.2.1, hf.2.2.2.2.2.2.2.1, hf.2.2.2.2.2.2.1]
      exact readyCycle_clearInstDests _ _ _ hd

/-- C1 witness: a concrete stale-stream head at the tail of its unit is
discarded with the claimed effects. -/
theorem commit_discards_stale_stream_head_witness :
    (commitStep engStale headStale envStale).discardInst = true ∧
    (commitStep engStale headStale envStale).executeCalled = false ∧
    (commitStep engStale headStale envStale).eng.scoreboard.readyCycle 5
      = 0 := by
  have h := commit_discards_stale_stream_head engStale headStale envStale
    (by decide) rfl
    (Or.inr ⟨Or.inl rfl, rfl, rfl, Or.inr ⟨rfl, rfl, by decide⟩⟩)
  exact ⟨h.1, h.2.2.1, h.2.2.2.2.2.2.2.2.2 5 (by decide)⟩

/-- C2 counterexample: a forced (serialize-after) predicted-taken branch
whose actual target matches its predicted target is classified
`UnpredictedBranch` by `tryToBranch`, while the claim's table over
(predictedTaken, mustBranch, targets-match) = (true, true, true) demands
`CorrectlyPredictedBranch`. -/
theorem tryToBranch_forced_taken_not_table :
    (tryToBranch {} instForcedTaken none 100 none).reason =
      .UnpredictedBranch ∧
    instForcedTaken.predictedTaken = true ∧
    ((instForcedTaken.pc != (100 : Nat)) || forceBranch instForcedTaken)
      = true ∧
    (instForcedTaken.predictedTarget == instForcedTaken.advancedPC)
      = true ∧
    claimedReasonTable true true true (forceBranch instForcedTaken) =
      .CorrectlyPredictedBranch ∧
    Reason.UnpredictedBranch ≠ Reason.CorrectlyPredictedBranch := by
  refine ⟨?_, rfl, ?_, rfl, ?_, ?_⟩ <;> decide

/-- C2 (amended): for a non-fault instruction, `tryToBranch` emits
exactly the reason of the source table in which the "not forced"
qualifier scopes over all three predicted-taken rows, and `NoBranch`
leaves the outgoing branch untouched (no redirect). -/
theorem tryToBranch_classification (eng : Engine) (inst : MInst)
    (threadPC : Nat) (brIn : Option BranchData)
    (_hf : inst.fault = none) :
    (tryToBranch eng inst none threadPC brIn).reason =
      sourceReasonTable inst.predictedTaken (forceBranch inst)
        ((inst.pc != threadPC) || forceBranch inst)
        (inst.predictedTarget == inst.advancedPC) ∧
    ((tryToBranch eng inst none threadPC brIn).reason = .NoBranch →
      (tryToBranch eng inst none threadPC brIn).branch = brIn) := by
  constructor
  · cases hpt : inst.predictedTaken <;>
      cases hfb : forceBranch inst <;>
        cases hmb : (inst.pc != threadPC) <;>
          cases hm : (inst.predictedTarget == inst.advancedPC) <;>
            simp_all [tryToBranch, sourceReasonTable, updateBranchData]
  · intro hr
    revert hr
    cases hpt : inst.predictedTaken <;>
      cases hfb : forceBranch inst <;>
        cases hmb : (inst.pc != threadPC) <;>
          cases hm : (inst.predictedTarget == inst.advancedPC) <;>
            simp_all [tryToBranch, updateBranchData]

/-- C2 witness. -/
theorem tryToBranch_classification_witness :
    (tryToBranch {} instForcedTaken none 100 none).reason =
      sourceReasonTable instForcedTaken.predictedTaken
        (forceBranch instForcedTaken)
        ((instForcedTaken.pc != (100 : Nat)) ||
          forceBranch instForcedTaken)
        (instForcedTaken.predictedTarget == instForcedTaken.advancedPC) :=
  (tryToBranch_classification {} instForcedTaken 100 none rfl).1

/-- C3 counterexample: `updateBranchData` with reason
`CorrectlyPredictedBranch` — a reason other than `NoBranch` — leaves the
stream sequence number unchanged while still constructing a
`BranchData`. -/
theorem updateBranchData_correctly_predicted_no_bump :
    (updateBranchData { streamSeqNum := 5 } .CorrectlyPredictedBranch
        bubbleMInst 3 none).1.streamSeqNum = 5 ∧
    (updateBranchData { streamSeqNum := 5 } .CorrectlyPredictedBranch
        bubbleMInst 3 none).2.isSome = true ∧
    Reason.CorrectlyPredictedBranch ≠ Reason.NoBranch := by
  decide

/-- C3 (amended): any reason other than `NoBranch` constructs a
`BranchData` carrying the current stream sequence number — bumped by
exactly 1 only for stream-changing reasons — and the instruction's
prediction sequence number (the last seen one when the instruction is
the bubble); in particular `BadlyPredictedBranchTarget` bumps the stream
sequence number by exactly 1. -/
theorem updateBranchData_nonNoBranch_spec (eng : Engine) (reason : Reason)
    (inst : MInst) (target : Nat) (brIn : Option BranchData)
    (h : reason ≠ .NoBranch) :
    (updateBranchData eng reason inst target brIn).1.streamSeqNum =
      (if isStreamChange reason then eng.streamSeqNum + 1
       else eng.streamSeqNum) ∧
    (updateBranchData eng reason inst target brIn).2 =
      some { reason := reason,
             newStreamSeqNum :=
               (updateBranchData eng reason inst target brIn).1.streamSeqNum,
             predictionSeqNum :=
               if inst.isBubble then eng.lastPredictionSeqNum
               else inst.predictionSeqNum,
             target := target } ∧
    (reason = .BadlyPredictedBranchTarget →
      (updateBranchData eng reason inst target brIn).1.streamSeqNum =
        eng.streamSeqNum + 1) := by
  refine ⟨?_, updateBranchData_emit eng reason inst target brIn h, ?_⟩
  · simp [updateBranchData, h]
  · intro hr; subst hr; simp [updateBranchData, isStreamChange]

/-- C3 witness. -/
theorem updateBranchData_nonNoBranch_spec_witness :
    (updateBranchData { streamSeqNum := 5 } .BadlyPredictedBranchTarget
        bubbleMInst 3 none).1.streamSeqNum = 5 + 1 :=
  (updateBranchData_nonNoBranch_spec { streamSeqNum := 5 }
    .BadlyPredictedBranchTarget bubbleMInst 3 none (by decide)).2.2 rfl

end Minor

namespace Minor

/-- C4 counterexample: with an issue limit of 1, a leading bubble is
counted against the instruction-issue limit, so the following issuable
instruction is not issued that cycle — bubbles are not free in this
source. -/
theorem issue_bubble_counts_against_issue_limit :
    envOneIssue.issueLimit = 1 ∧
    (issue envOneIssue false ⟨[]⟩
      [bubbleMInst, instIssuable]).numInstsIssued = 1 ∧
    (issue envOneIssue false ⟨[]⟩
      [bubbleMInst, instIssuable]).inFlight.length = 0 ∧
    (issue envOneIssue false ⟨[]⟩ [instIssuable]).inFlight.length = 1 := by
  refine ⟨rfl, ?_, ?_, ?_⟩ <;> decide

/-- C4 (amended): `issue` considers the batch strictly in order; the
first instruction that fails to issue (suspended thread, restricted to
remaining microops, or no functional unit accepting it) stops the call
with no later instruction issued, as does reaching the
instruction-issue or memory-op-issue limit; a stream-mismatched
instruction is stepped over, counted as discarded and not against the
issue limit, while a bubble is stepped over but does count against the
issue limit. -/
theorem issue_inorder_stop_spec (env : IssueEnv) (only : Bool)
    (st : IssueState) (inst : MInst) (rest : List MInst) :
    ((issueStep env st inst only).issued = false →
      issueLoop env only st (inst :: rest) =
        (issueStep env st inst only).st) ∧
    ((issueStep env st inst only).st.numInstsIssued = env.issueLimit →
      issueLoop env only st (inst :: rest) =
        (issueStep env st inst only).st) ∧
    ((issueStep env st inst only).st.numMemInstsIssued =
        env.memoryIssueLimit →
      issueLoop env only st (inst :: rest) =
        (issueStep env st inst only).st) ∧
    (inst.isBubble = false → inst.threadSuspended = true →
      (issueStep env st inst only).issued = false ∧
      (issueStep env st inst only).st = st) ∧
    (inst.isBubble = false → inst.threadSuspended = false →
      (inst.streamSeqNum != env.streamSeqNum) = false →
      (inst.fault.isNone && only &&
        (!inst.isMicroop || !inst.isFirstMicroop)) = true →
      (issueStep env st inst only).issued = false ∧
      (issueStep env st inst only).st = st) ∧
    (inst.isBubble = false → inst.threadSuspended = false →
      (inst.streamSeqNum != env.streamSeqNum) = false →
      (inst.fault.isNone && only &&
        (!inst.isMicroop || !inst.isFirstMicroop)) = false →
      inst.isNoCost = false →
      (fuScanFrom env st.scoreboard inst 0 env.funcUnits).issued
        = false →
      (issueStep env st inst only).issued = false ∧
      (issueStep env st inst only).st.numInstsIssued =
        st.numInstsIssued ∧
      (issueStep env st inst only).st.inFlight = st.inFlight) ∧
    (inst.isBubble = false → inst.threadSuspended = false →
      (inst.streamSeqNum != env.streamSeqNum) = true →
      (issueStep env st inst only).issued = true ∧
      (issueStep env st inst only).discarded = true ∧
      (issueStep env st inst only).st.numInstsIssued =
        st.numInstsIssued ∧
      (issueStep env st inst only).st.numInstsDiscarded =
        st.numInstsDiscarded + 1 ∧
      (issueStep env st inst only).st.inFlight = st.inFlight) ∧
    (inst.isBubble = true →
      (issueStep env st inst only).issued = true ∧
      (issueStep env st inst only).st.numInstsIssued =
        st.numInstsIssued + 1 ∧
      (issueStep env st inst only).st.inFlight = st.inFlight) := by
  refine ⟨?_, ?_, ?_, ?_, ?_, ?_, ?_, ?_⟩
  · intro h
    simp only [issueLoop, h, Bool.and_false, Bool.false_and,
      Bool.false_eq_true, if_false]
  · intro h
    simp only [issueLoop, h, bne_self_eq_false, Bool.and_false,
      Bool.false_and, Bool.false_eq_true, if_false]
  · intro h
    simp only [issueLoop, h, bne_self_eq_false, Bool.and_false,
      Bool.false_and, Bool.false_eq_true, if_false]
  · intro h1 h2
    simp [issueStep, h1, h2]
  · intro h1 h2 h3 h4
    simp [issueStep, h1, h2, h3, h4]
  · intro h1 h2 h3 h4 h5 h6
    simp [issueStep, h1, h2, h3, h4, h5, h6]
  · intro h1 h2 h3
    simp [issueStep, issueAccounting, h1, h2, h3]
  · intro h1
    simp [issueStep, issueAccounting, MInst.isInst, h1]

/-- C4 witness. -/
theorem issue_inorder_stop_spec_witness :
    (issueStep envOneIssue { scoreboard := ⟨[]⟩ } bubbleMInst
      false).issued = true :=
  ((issue_inorder_stop_spec envOneIssue false { scoreboard := ⟨[]⟩ }
    bubbleMInst []).2.2.2.2.2.2.2 rfl).1

/-- C5: a (non-prefetch) memory instruction whose response carries a
fault has that fault invoked against the thread, never runs
`completeAcc`, pops the response, completes and commits, and the single
`tryToBranch` pass emits exactly one redirect (a branch with a
non-`NoBranch` reason into the previously-empty branch slot). -/
theorem memResponse_fault_invokes_no_completeAcc (eng : Engine)
    (head : MInst) (env : CommitEnv) (f : Nat) (resp : MemResponse)
    (hlsq : head.inLSQ = true) (hresp : env.memResponse = some resp)
    (hfault : resp.fault = some f)
    (hpref : head.isPrefetch = false)
    (hpce : env.pcEventsBranch = false)
    (hlim : env.numMemRefsCommitted < env.memoryCommitLimit)
    (hstream : head.streamSeqNum = eng.streamSeqNum)
    (hdisc : env.discard = false)
    (hbr : env.branchIn = none) :
    (commitStep eng head env).faultInvoked = true ∧
    (commitStep eng head env).completeAccCalled = false ∧
    (commitStep eng head env).lsqResponsePopped = true ∧
    (commitStep eng head env).fault = some f ∧
    (commitStep eng head env).completedInst = true ∧
    (commitStep eng head env).committedInst = true ∧
    Option.map BranchData.reason (commitStep eng head env).branch =
      some (tryToBranch { eng with numOps := eng.numOps + 1 } head
        (some f) env.threadPC none).reason ∧
    (tryToBranch { eng with numOps := eng.numOps + 1 } head (some f)
        env.threadPC none).reason ≠ .NoBranch := by
  obtain ⟨hne, hmap⟩ := tryToBranch_some_fault_emits
    { eng with numOps := eng.numOps + 1 } head f env.threadPC none
  simp only [commitStep, commitStepTail, commitCore,
    commitCoreMemResponse, handleMemResponse, hlsq, hresp, hpce, hlim,
    hstream, hdisc, hfault, hpref, hbr]
  simp_all [bne_self_eq_false, Option.isSome_some]

/-- C5 witness. -/
theorem memResponse_fault_invokes_no_completeAcc_witness :
    (commitStep {} headLoad envFaultResponse).faultInvoked = true ∧
    (commitStep {} headLoad envFaultResponse).completeAccCalled = false ∧
    (commitStep {} headLoad envFaultResponse).lsqResponsePopped
      = true := by
  have h := memResponse_fault_invokes_no_completeAcc {} headLoad
    envFaultResponse 42 { fault := some 42 } rfl rfl rfl rfl rfl
    (by decide) rfl rfl rfl
  exact ⟨h.1, h.2.1, h.2.2.1⟩

/-- C6: when `issue` places an instruction into a functional unit, every
destination register of the instruction is recorded busy in the
scoreboard until cycle `curCycle + opLat + extraCommitLat +
extraAssumedLat`, the extras coming from the unit's per-opcode timing
entry (0 without one). -/
theorem issue_marks_dests_busy_full_latency (env : IssueEnv)
    (st : IssueState) (inst : MInst) (only : Bool) (u : FUnit)
    (h1 : inst.isBubble = false) (h2 : inst.threadSuspended = false)
    (h3 : (inst.streamSeqNum != env.streamSeqNum) = false)
    (h4 : (inst.fault.isNone && only &&
      (!inst.isMicroop || !inst.isFirstMicroop)) = false)
    (h5 : inst.isNoCost = false)
    (hscan : (fuScanFrom env st.scoreboard inst 0 env.funcUnits).chosenFU
      = some u) :
    (issueStep env st inst only).issued = true ∧
    ∀ d ∈ inst.destRegs,
      (issueStep env st inst only).st.scoreboard.readyCycle d =
        env.curCycle + u.opLat + extraCommitLatFor u inst +
          extraAssumedLatFor u inst := by
  obtain ⟨hiss, hsb⟩ := fuScanFrom_chosen_spec env inst st.scoreboard u
    env.funcUnits 0 hscan
  constructor
  · simp only [issueStep, h1, h2, h3, h4, h5, Bool.false_eq_true,
      if_false, hiss, if_true]
  · intro d hd
    have hsc : (issueStep env st inst only).st.scoreboard =
        (fuScanFrom env st.scoreboard inst 0 env.funcUnits).scoreboard
        := by
      simp only [issueStep, h1, h2, h3, h4, h5, Bool.false_eq_true,
        if_false, hiss, if_true, issueAccounting_scoreboard]
    rw [hsc, hsb]
    exact readyCycle_markupInstDests _ _ _ _ hd

/-- C6 witness. -/
theorem issue_marks_dests_busy_full_latency_witness :
    (issueStep envOneIssue { scoreboard := ⟨[]⟩ } instIssuable
      false).st.scoreboard.readyCycle 3 =
    envOneIssue.curCycle + fuAllOps.opLat +
      extraCommitLatFor fuAllOps instIssuable +
      extraAssumedLatFor fuAllOps instIssuable :=
  (issue_marks_dests_busy_full_latency envOneIssue { scoreboard := ⟨[]⟩ }
    instIssuable false fuAllOps rfl rfl rfl rfl rfl rfl).2 3
    (by decide)

/-- C7: the drain state machine only moves along `NotDraining →
DrainCurrentInst` (drain requested mid-instruction) or `NotDraining →
DrainHaltFetch` (requested between whole instructions), `DrainCurrentInst
→ DrainHaltFetch` once between instructions, `DrainHaltFetch →
DrainAllInsts`, and back to `NotDraining` only through `drainResume`;
`isDrained` holds exactly in `DrainAllInsts` with the input buffer, the
in-flight queue and the LSQ empty. -/
theorem drain_state_machine_spec (ds : DrainState) (inB a b c : Bool) :
    drain .NotDraining inB =
      (if inB then .DrainHaltFetch else .DrainCurrentInst) ∧
    drain .DrainCurrentInst inB = .DrainCurrentInst ∧
    drain .DrainHaltFetch inB = .DrainHaltFetch ∧
    drain .DrainAllInsts inB = .DrainAllInsts ∧
    evaluateDrainCommitPhase .DrainCurrentInst inB =
      (if inB then .DrainHaltFetch else .DrainCurrentInst) ∧
    evaluateDrainCommitPhase .NotDraining inB = .NotDraining ∧
    evaluateDrainCommitPhase .DrainHaltFetch inB = .DrainHaltFetch ∧
    evaluateDrainCommitPhase .DrainAllInsts inB = .DrainAllInsts ∧
    evaluateDrainHaltPhase .DrainHaltFetch = .DrainAllInsts ∧
    evaluateDrainHaltPhase .NotDraining = .NotDraining ∧
    evaluateDrainHaltPhase .DrainCurrentInst = .DrainCurrentInst ∧
    evaluateDrainHaltPhase .DrainAllInsts = .DrainAllInsts ∧
    drainResume ds = .NotDraining ∧
    isDrained ds a b c = (ds == .DrainAllInsts && a && b && c) := by
  cases ds <;> cases inB <;> cases a <;> cases b <;> cases c <;> decide

/-- C8 counterexample: a configuration with a zero memory commit limit
(and otherwise legal limits) passes every constructor check, although the
claim says construction must abort for a zero-or-negative memory commit
limit. -/
theorem constructorCheck_accepts_zero_memoryCommitLimit :
    executeConstructorCheck ⟨1, 1, 1, 0, 1⟩ = none ∧
    (⟨1, 1, 1, 0, 1⟩ : MinorCPUParams).executeMemoryCommitLimit ≤ 0 := by
  decide

/-- C8 (amended): construction aborts exactly for a commit limit below
1, an issue limit below 1, a memory issue limit below 1, a memory commit
limit above the commit limit, or an input buffer size below 1 — a
zero-or-negative memory commit limit alone is not checked. -/
theorem constructorCheck_spec (p : MinorCPUParams) :
    executeConstructorCheck p = none ↔
      (1 ≤ p.executeCommitLimit ∧ 1 ≤ p.executeIssueLimit ∧
       1 ≤ p.executeMemoryIssueLimit ∧
       p.executeMemoryCommitLimit ≤ p.executeCommitLimit ∧
       1 ≤ p.executeInputBufferSize) := by
  unfold executeConstructorCheck
  split <;> try (split <;> try (split <;> try (split <;> try split)))
  all_goals simp_all

/-- C8 witness. -/
theorem constructorCheck_spec_witness :
    executeConstructorCheck ⟨2, 2, 1, 1, 3⟩ = none :=
  (constructorCheck_spec ⟨2, 2, 1, 1, 3⟩).mpr (by decide)

end Minor

namespace Minor

/-- C9 counterexample: a head instruction whose extra-commit-delay
expression evaluates to 128 is not stalled at all — the value is dropped
rather than folded into the minimum-commit-cycle gate, and the opaque
execute operation runs immediately at cycle 5. -/
theorem extra_commit_delay_128_dropped :
    headDelay128.extraCommitDelayExpr = some 128 ∧
    envDelay128.now = 5 ∧
    (commitStep {} headDelay128 envDelay128).executeCalled = true ∧
    (commitStep {} headDelay128 envDelay128).committedInst = true ∧
    (commitStep {} headDelay128 envDelay128).inst.minimumCommitCycle
      = 0 := by
  refine ⟨rfl, rfl, ?_, ?_, ?_⟩ <;> decide

/-- C9 (amended): for a head instruction carrying an extra-commit-delay
expression, commit evaluates it exactly once (the expression is cleared),
folds its value into the minimum-commit-cycle gate only when the value is
below 128 (larger values are dropped), and stalls the instruction —
making no progress and invoking no execute — until the current cycle
reaches the gate, after which a plain instruction commits through the
opaque execute operation. -/
theorem extra_commit_delay_expr_gate_spec (eng : Engine) (head : MInst)
    (env : CommitEnv) (v : Nat)
    (hpce : env.pcEventsBranch = false)
    (hmem : (if head.inLSQ then env.memResponse else none) = none ∨
            ¬ env.numMemRefsCommitted < env.memoryCommitLimit)
    (hcc : (env.onlyCommitMicroops && eng.lastCommitWasEndOfMacroop)
      = false)
    (hearly : earlyIssueInst eng env head.execSeqNum = none)
    (hsel : head.isNoCost = true ∨
      (head.inLSQ = false ∧ (env.fuFront head.fuIndex).isBubble = false ∧
       ((env.fuFront head.fuIndex).execSeqNum != head.execSeqNum)
         = false))
    (hstream : head.streamSeqNum = eng.streamSeqNum)
    (hdisc : env.discard = false)
    (hexpr : head.extraCommitDelayExpr = some v) :
    (commitStep eng head env).inst.extraCommitDelayExpr = none ∧
    (commitStep eng head env).inst.extraCommitDelay = 0 ∧
    (head.extraCommitDelay + (if v < 128 then v else 0) ≠ 0 →
      (commitStep eng head env).inst.minimumCommitCycle =
        env.now + (head.extraCommitDelay + (if v < 128 then v else 0)) ∧
      (commitStep eng head env).completedInst = false ∧
      (commitStep eng head env).executeCalled = false) ∧
    (head.extraCommitDelay + (if v < 128 then v else 0) = 0 →
      (commitStep eng head env).inst.minimumCommitCycle =
        head.minimumCommitCycle ∧
      (env.now < head.minimumCommitCycle →
        (commitStep eng head env).completedInst = false ∧
        (commitStep eng head env).executeCalled = false) ∧
      (¬ env.now < head.minimumCommitCycle →
        head.threadSuspended = false → head.fault = none →
        head.isMemRef = false → head.isMemBarrier = false →
        (commitStep eng head env).executeCalled = true ∧
        (commitStep eng head env).committedInst = true)) := by
  have hd : (head.streamSeqNum != eng.streamSeqNum || env.discard)
      = false := by simp [hstream, hdisc]
  have hcore : commitCore eng head env =
      finishTry env (commitTry eng head false env) := by
    rw [commitCore_insts_arm eng head env hpce hmem]
    exact commitCoreInsts_try_head eng head env hcc hearly hsel
  have hspec := commitTry_expr_spec eng head false env v hd hexpr
  have hf := finishTry_fields env (commitTry eng head false env)
  have ht := commitStepTail_inst_fields env
    (finishTry env (commitTry eng head false env))
  have hiE : (commitStep eng head env).inst.extraCommitDelayExpr =
      (commitTry eng head false env).inst.extraCommitDelayExpr := by
    unfold commitStep; rw [hcore]
    exact ht.1.trans (congrArg MInst.extraCommitDelayExpr
      hf.2.2.2.2.2.2.1)
  have hiD : (commitStep eng head env).inst.extraCommitDelay =
      (commitTry eng head false env).inst.extraCommitDelay := by
    unfold commitStep; rw [hcore]
    exact ht.2.1.trans (congrArg MInst.extraCommitDelay
      hf.2.2.2.2.2.2.1)
  have hiM : (commitStep eng head env).inst.minimumCommitCycle =
      (commitTry eng head false env).inst.minimumCommitCycle := by
    unfold commitStep; rw [hcore]
    exact ht.2.2.1.trans (congrArg MInst.minimumCommitCycle
      hf.2.2.2.2.2.2.1)
  have hiC : (commitStep eng head env).completedInst =
      (commitTry eng head false env).completedInst := by
    unfold commitStep; rw [hcore]
    exact ht.2.2.2.1.trans hf.2.1
  have hiX : (commitStep eng head env).executeCalled =
      (commitTry eng head false env).executeCalled := by
    unfold commitStep; rw [hcore]
    exact ht.2.2.2.2.1.trans hf.2.2.2.2.1
  have hiK : (commitStep eng head env).committedInst =
      (commitTry eng head false env).committedInst := by
    unfold commitStep; rw [hcore]
    exact ht.2.2.2.2.2.trans hf.2.2.2.2.2.1
  refine ⟨hiE.trans hspec.1, hiD.trans hspec.2.1, fun h => ?_,
    fun h => ?_⟩
  · obtain ⟨h1, h2, h3⟩ := hspec.2.2.1 h
    exact ⟨hiM.trans h1, hiC.trans h2, hiX.trans h3⟩
  · obtain ⟨h1, h2, h3⟩ := hspec.2.2.2 h
    refine ⟨hiM.trans h1, fun hm => ?_, fun hm a b c d => ?_⟩
    · obtain ⟨x1, x2⟩ := h2 hm
      exact ⟨hiC.trans x1, hiX.trans x2⟩
    · obtain ⟨x1, x2⟩ := h3 hm a b c d
      exact ⟨hiX.trans x1, hiK.trans x2⟩

/-- C9 witness. -/
theorem extra_commit_delay_expr_gate_spec_witness :
    (commitStep {} headDelay128 envDelay128).inst.extraCommitDelayExpr
      = none ∧
    (commitStep {} headDelay128 envDelay128).inst.extraCommitDelay
      = 0 := by
  have h := extra_commit_delay_expr_gate_spec {} headDelay128 envDelay128
    128 rfl (Or.inl rfl) rfl rfl (Or.inr ⟨rfl, rfl, by decide⟩) rfl rfl
    rfl
  exact ⟨h.1, h.2.1⟩

/-- C10: in every commit-loop iteration, an instruction marked for
discard is also marked completed in that same iteration (the source's
assertion `!(discard_inst && !completed_inst)` can never fail), and the
in-flight queue head is popped, so a discarded instruction never lingers
at the head. -/
theorem discarded_implies_completed (eng : Engine) (head : MInst)
    (env : CommitEnv)
    (h : (commitStep eng head env).discardInst = true) :
    (commitStep eng head env).completedInst = true ∧
    (commitStep eng head env).inFlightPopped = true := by
  unfold commitStep at *
  rw [(commitStepTail_discard_fields env _).1] at h
  obtain ⟨hc, hm, hf⟩ := commitCore_discard eng head env h
  rw [(commitStepTail_discard_fields env _).2.1,
    (commitStepTail_discard_fields env _).2.2]
  rw [hc, hm, hf]
  exact ⟨rfl, rfl⟩

/-- C10 witness. -/
theorem discarded_implies_completed_witness :
    (commitStep engStale headStale envStale).completedInst = true ∧
    (commitStep engStale headStale envStale).inFlightPopped = true :=
  discarded_implies_completed engStale headStale envStale (by decide)

end Minor
